import Mathlib

/-!
Formal model of the Xformed audio core: the synthesis engine
(crates/melody-synth/src/lib.rs) and the feature-extraction engine
(crates/audio-features/src/lib.rs), embedded over exact rational
arithmetic.  Transcendental floating-point primitives (sin, cos, sqrt,
ln, exp, powf) and the external FFT (the rustfft crate) are abstracted
as an explicit record of operations, `FloatOps`; every other arithmetic
step follows the Rust source expression by expression, with `f32`/`f64`
values modelled as rationals, `as usize` / `as i16` / `as u8` casts
modelled as truncation toward zero with saturation at zero for
unsigned targets, and Rust integer arithmetic modelled exactly.
-/

/-- Truncation of a rational toward zero, as Rust float-to-integer casts do. -/
def ratTrunc (q : ℚ) : Int := q.num / (q.den : Int)

/-- Rust `as usize` cast of a float value (truncates toward zero, saturates at 0). -/
def qToUsize (q : ℚ) : Nat := (ratTrunc q).toNat

/-- Rust `f32::clamp(lo, hi)`, i.e. `min (max x lo) hi`. -/
def qClamp (x lo hi : ℚ) : ℚ := min (max x lo) hi

/-- Rust `%` on floats: `x - y * trunc (x / y)`. -/
def qMod (x y : ℚ) : ℚ := x - y * (ratTrunc (x / y) : ℚ)

/-- Rust `f32::fract` (fractional part, truncation toward zero). -/
def qFract (q : ℚ) : ℚ := q - (ratTrunc q : ℚ)

/-- The exact rational value of the `f32` constant `std::f32::consts::PI`. -/
def pi32 : ℚ := 13176795 / 4194304

/-- Abstracted floating-point transcendental primitives and the external
forward FFT.  The engines are pure functions of these operations; the real
`f32`/`f64` library functions form one particular instance. -/
structure FloatOps where
  pi : ℚ
  sin : ℚ → ℚ
  cos : ℚ → ℚ
  sqrt : ℚ → ℚ
  ln : ℚ → ℚ
  exp : ℚ → ℚ
  powf : ℚ → ℚ → ℚ
  fft : List (ℚ × ℚ) → List (ℚ × ℚ)

/- =========================
   crates/melody-core: data model
   ========================= -/

/-- melody_core::Note.  The Rust field `end` is a Lean keyword and is
modelled as `end_`. -/
structure Note where
  pitch : Nat
  start : ℚ
  end_ : ℚ
  velocity : Nat
  deriving DecidableEq

/-- melody_core::MonophonicMidi. -/
structure MonophonicMidi where
  notes : List Note
  tempo_bpm : Nat
  deriving DecidableEq

/-- melody_core::ScaleKind. -/
inductive ScaleKind
  | Major
  | Minor
  deriving DecidableEq

/- =========================
   crates/melody-synth: public types
   ========================= -/

/-- melody_synth::Osc. -/
inductive Osc
  | Sine
  | Saw
  | Square
  deriving DecidableEq

/-- melody_synth::StyleParams. -/
structure StyleParams where
  layering : List Osc
  swing : ℚ
  humanize : ℚ
  polyphony : Nat
  percussion : Bool
  scale : ScaleKind
  deriving DecidableEq

/-- The `Default` instance of `StyleParams`. -/
def defaultStyle : StyleParams :=
  { layering := [Osc.Saw, Osc.Sine], swing := 0, humanize := 1/10,
    polyphony := 1, percussion := false, scale := ScaleKind.Major }

/-- melody_synth internal NoteEv. -/
structure NoteEv where
  pitch : Nat
  t_on : ℚ
  t_off : ℚ
  velocity : Nat
  deriving DecidableEq

/- =========================
   melody-synth: tiny PRNG (rand_hash)
   ========================= -/

/-- melody_synth::rand_hash: the xorshift-style integer-mixing hash.
`u64` arithmetic is modelled exactly over `Nat` with reduction mod 2^64;
the final `f32` division is modelled as the exact rational
`r / (u32::MAX)`. -/
def rand_hash (x0 : Nat) : ℚ :=
  let x := x0 % 2 ^ 64
  let x := Nat.xor x (x >>> 12)
  let x := Nat.xor x ((x <<< 25) % 2 ^ 64)
  let x := Nat.xor x (x >>> 27)
  let r := ((x * 0x2545F4914F6CDD1D) % 2 ^ 64) >>> 33
  (r : ℚ) / 4294967295

/- =========================
   melody-synth: MIDI → events
   ========================= -/

/-- melody_synth::collect_events: keep only notes with `end > start`,
fail when nothing is left. -/
def collect_events (midi : MonophonicMidi) : Except String (List NoteEv) :=
  let evs := (midi.notes.filter (fun n => n.start < n.end_)).map
    (fun n => { pitch := n.pitch, t_on := n.start, t_off := n.end_,
                velocity := n.velocity : NoteEv })
  if evs = [] then Except.error "No notes in MonophonicMidi (collect_events)"
  else Except.ok evs

/-- The ordering used by the Rust `sort_by` calls on note events. -/
def evLe (a b : NoteEv) : Prop := a.t_on ≤ b.t_on

instance : DecidableRel evLe := fun a b => inferInstanceAs (Decidable (a.t_on ≤ b.t_on))

instance : IsTotal NoteEv evLe := ⟨fun a b => le_total a.t_on b.t_on⟩

instance : IsTrans NoteEv evLe := ⟨fun _ _ _ h h' => le_trans h h'⟩

/-- The median taken inside melody_synth::estimate_bpm: the element at
index `len / 2` of the duration list sorted ascending (Rust's stable
`sort_by` on plain rationals is modelled by `List.insertionSort`). -/
def median_dur (evs : List NoteEv) : ℚ :=
  let ds := List.insertionSort (fun a b : ℚ => a ≤ b) (evs.map (fun e => e.t_off - e.t_on))
  ds.getD (ds.length / 2) 0

/-- melody_synth::estimate_bpm. -/
def estimate_bpm (evs : List NoteEv) : Option ℚ :=
  if evs = [] then none else
  let med := median_dur evs
  if med ≤ 0 then none else
  let beats := med / (1/2)
  let bpm := 60 * max beats (1/10)
  some (qClamp bpm 50 200)

/-- melody_synth::calc_total_len. -/
def calc_total_len (evs : List NoteEv) : ℚ :=
  evs.foldl (fun mx e => max mx e.t_off) 0

/- =========================
   melody-synth: swing & humanize
   ========================= -/

/-- The body of the loop in melody_synth::apply_swing_and_humanize for
index `i` (swing and humanize already clamped, `eighth` precomputed). -/
def swing_humanize_one (swing human eighth : ℚ) (i : Nat) (e : NoteEv) : NoteEv :=
  let e :=
    if i % 2 = 1 ∧ 0 < swing then
      let shift := swing * (1/2) * eighth
      { e with t_on := e.t_on + shift, t_off := e.t_off + shift }
    else e
  if 0 < human then
    let dur := max (e.t_off - e.t_on) (1/10000)
    let jt := (rand_hash i * 2 - 1) * (2/100) * human * dur
    let new_on := max (e.t_on + jt) 0
    let new_off := max (e.t_off + jt) (new_on + 1/10000)
    let jv := 1 + (rand_hash (Nat.xor i 0x9E3779B97F4A7C15) * 2 - 1) * (12/100) * human
    let vv := qClamp ((e.velocity : ℚ) * jv) 1 127
    { e with t_on := new_on, t_off := new_off, velocity := (ratTrunc vv).toNat }
  else e

/-- melody_synth::apply_swing_and_humanize. -/
def apply_swing_and_humanize (evs : List NoteEv) (swing human bpm : ℚ) : List NoteEv :=
  if evs = [] then evs else
  let swing := qClamp swing 0 (35/100)
  let human := qClamp human 0 (4/10)
  let eighth := 60 / bpm / 2
  evs.enum.map (fun p => swing_humanize_one swing human eighth p.1 p.2)

/- =========================
   melody-synth: polyphony expansion
   ========================= -/

/-- The (third, fifth) semitone pair chosen by melody_synth::expand_polyphony. -/
def scale_intervals (scale : ScaleKind) : Nat × Nat :=
  match scale with
  | ScaleKind.Major => (4, 7)
  | ScaleKind.Minor => (3, 7)

/-- melody_synth::expand_polyphony.  The Rust `(pitch as i32 + semi).clamp(0,127)`
is `min (pitch + semi) 127` since pitch and the interval are nonnegative.
Rust's stable `sort_by` is modelled by the stable `List.insertionSort`. -/
def expand_polyphony (evs : List NoteEv) (voices : Nat) (scale : ScaleKind) : List NoteEv :=
  let voices := max (min voices 3) 1
  if voices = 1 then evs else
  let ts := scale_intervals scale
  let evs1 := evs ++ (if 2 ≤ voices then
    evs.map (fun e => { e with pitch := min (e.pitch + ts.1) 127 }) else [])
  let evs2 := evs1 ++ (if 3 ≤ voices then
    evs.map (fun e => { e with pitch := min (e.pitch + ts.2) 127 }) else [])
  List.insertionSort evLe evs2

/- =========================
   melody-synth: layering
   ========================= -/

/-- melody_synth::LayerSpec. -/
structure LayerSpec where
  osc : Osc
  detune_cents : ℚ
  gain : ℚ
  deriving DecidableEq

/-- The (detune, gain) table inside melody_synth::layering_specs. -/
def layer_recipe : Osc → Nat → ℚ × ℚ
  | Osc.Saw, 0 => (0, 70/100)
  | Osc.Saw, 1 => (7, 20/100)
  | Osc.Saw, _ => (-4, 10/100)
  | Osc.Square, 0 => (0, 70/100)
  | Osc.Square, 1 => (5, 20/100)
  | Osc.Square, _ => (-5, 10/100)
  | Osc.Sine, 0 => (0, 80/100)
  | Osc.Sine, 1 => (12, 15/100)
  | Osc.Sine, _ => (4, 5/100)

/-- melody_synth::layering_specs. -/
def layering_specs (list : List Osc) : List LayerSpec :=
  if list = [] then [{ osc := Osc.Saw, detune_cents := 0, gain := 1 }]
  else list.enum.map (fun p =>
    let dg := layer_recipe p.2 p.1
    { osc := p.2, detune_cents := dg.1, gain := dg.2 })

/-- Rust `Vec::rotate_left`. -/
def rotate_left (l : List α) (r : Nat) : List α := l.drop r ++ l.take r

/- =========================
   melody-synth: oscillators & note rendering
   ========================= -/

/-- melody_synth::midi_pitch_to_hz. -/
def midi_pitch_to_hz (ops : FloatOps) (p : Nat) : ℚ :=
  440 * ops.powf 2 (((p : ℚ) - 69) / 12)

/-- melody_synth::cents_to_ratio. -/
def cents_to_ratio (ops : FloatOps) (cents : ℚ) : ℚ :=
  ops.powf 2 (cents / 1200)

/-- melody_synth::osc_sample. -/
def osc_sample (ops : FloatOps) (osc : Osc) (phase : ℚ) : ℚ :=
  match osc with
  | Osc.Sine => ops.sin (2 * ops.pi * phase)
  | Osc.Saw => 2 * qFract phase - 1
  | Osc.Square => if qFract phase < 1/2 then 1 else -1

/-- melody_synth::ad_env. -/
def ad_env (ops : FloatOps) (rel : ℚ) : ℚ :=
  let a := if rel < 2/100 then rel / (2/100) else 1
  let d := 1 - min (ops.powf rel (3/2)) 1
  a * d

/-- The sample loop of melody_synth::render_note: `k` is the offset from
`start` already written, the second argument the samples remaining. -/
def render_note_loop (ops : FloatOps) (osc : Osc) (gain inc dur : ℚ) (start : Nat) :
    Nat → Nat → ℚ → List ℚ → List ℚ
  | _, 0, _, out => out
  | k, r + 1, phase, out =>
    let i := start + k
    let rel := (k : ℚ) / dur
    let env := ad_env ops rel
    let s := osc_sample ops osc phase * env * gain
    let out := out.set i (out.getD i 0 + s)
    let phase := phase + inc
    let phase := if 1 ≤ phase then phase - 1 else phase
    render_note_loop ops osc gain inc dur start (k + 1) r phase out

/-- melody_synth::render_note. -/
def render_note (ops : FloatOps) (out : List ℚ) (sr : Nat) (f0 t_on t_off gain : ℚ)
    (osc : Osc) : List ℚ :=
  if t_off ≤ t_on then out else
  let start := qToUsize (max (t_on * (sr : ℚ)) 0)
  let end_ := min (qToUsize (t_off * (sr : ℚ))) out.length
  if end_ ≤ start then out else
  let inc := f0 / (sr : ℚ)
  let dur : ℚ := ((max (end_ - start) 1 : Nat) : ℚ)
  render_note_loop ops osc gain inc dur start 0 (end_ - start) 0 out

/- =========================
   melody-synth: drums
   ========================= -/

/-- The sample loop of melody_synth::render_kick. -/
def render_kick_loop (ops : FloatOps) (sr : Nat) (len : Nat) (start_hz end_hz : ℚ)
    (start : Nat) : Nat → Nat → ℚ → List ℚ → List ℚ
  | _, 0, _, out => out
  | k, r + 1, phase, out =>
    let i := start + k
    let rel := (k : ℚ) / (len : ℚ)
    let freq := start_hz + (end_hz - start_hz) * rel
    let inc := freq / (sr : ℚ)
    let env := ops.powf (1 - rel) 4
    let s := ops.sin (2 * ops.pi * phase) * env * (9/10)
    let out := out.set i (out.getD i 0 + s)
    let phase := qMod (phase + inc) 1
    render_kick_loop ops sr len start_hz end_hz start (k + 1) r phase out

/-- melody_synth::render_kick. -/
def render_kick (ops : FloatOps) (out : List ℚ) (sr : Nat) (t_on dur start_hz end_hz : ℚ) :
    List ℚ :=
  let start := qToUsize (t_on * (sr : ℚ))
  let end_ := qToUsize ((t_on + dur) * (sr : ℚ))
  if end_ ≤ start ∨ out.length < end_ then out else
  render_kick_loop ops sr (end_ - start) start_hz end_hz start 0 (end_ - start) 0 out

/-- The sample loop of melody_synth::render_snare. -/
def render_snare_loop (ops : FloatOps) (sr : Nat) (len : Nat) (tone inc : ℚ)
    (start : Nat) : Nat → Nat → ℚ → List ℚ → List ℚ
  | _, 0, _, out => out
  | k, r + 1, phase, out =>
    let i := start + k
    let rel := (k : ℚ) / (len : ℚ)
    let env := ops.powf (1 - rel) 3
    let t := ops.sin (2 * ops.pi * phase) * tone * env * (4/10)
    let phase := qMod (phase + inc) 1
    let n := (rand_hash i * 2 - 1) * env * (6/10)
    let out := out.set i (out.getD i 0 + (t + n))
    render_snare_loop ops sr len tone inc start (k + 1) r phase out

/-- melody_synth::render_snare. -/
def render_snare (ops : FloatOps) (out : List ℚ) (sr : Nat) (t_on dur tone : ℚ) : List ℚ :=
  let start := qToUsize (t_on * (sr : ℚ))
  let end_ := qToUsize ((t_on + dur) * (sr : ℚ))
  if end_ ≤ start ∨ out.length < end_ then out else
  render_snare_loop ops sr (end_ - start) tone (220 / (sr : ℚ)) start 0 (end_ - start) 0 out

/-- The sample loop of melody_synth::render_hat. -/
def render_hat_loop (len : Nat) (gain : ℚ) (ops : FloatOps)
    (start : Nat) : Nat → Nat → List ℚ → List ℚ
  | _, 0, out => out
  | k, r + 1, out =>
    let i := start + k
    let rel := (k : ℚ) / (len : ℚ)
    let env := ops.powf (1 - rel) 4
    let n := rand_hash (i * 13) * 2 - 1
    let bright := n - (1/2) * (rand_hash (i * 11) * 2 - 1)
    let out := out.set i (out.getD i 0 + bright * env * gain)
    render_hat_loop len gain ops start (k + 1) r out

/-- melody_synth::render_hat. -/
def render_hat (ops : FloatOps) (out : List ℚ) (sr : Nat) (t_on dur gain : ℚ) : List ℚ :=
  let start := qToUsize (t_on * (sr : ℚ))
  let end_ := qToUsize ((t_on + dur) * (sr : ℚ))
  if end_ ≤ start ∨ out.length < end_ then out else
  render_hat_loop (end_ - start) gain ops start 0 (end_ - start) out

/-- The while loop of melody_synth::render_drums.  The Rust loop runs while
`idx * eighth < total_secs`; since the rendering bpm is clamped to at most
200, `eighth ≥ 0.15 s`, so the iteration count is below `7 * out.len() + 1`
whenever `sr ≥ 1`; the fuel `8 * out.length + 8` supplied by `render_drums`
therefore never runs out on the arguments the engine produces. -/
def render_drums_loop (ops : FloatOps) (sr : Nat) (spb eighth total_secs : ℚ) :
    Nat → Nat → List ℚ → List ℚ
  | 0, _, out => out
  | fuel + 1, idx, out =>
    let t := (idx : ℚ) * eighth
    if t < total_secs then
      let beat_num : Int := Int.floor (t / spb)
      let in_bar := beat_num % 4
      let is_beat := qMod t spb < 1/1000000
      let out := if is_beat ∧ (in_bar = 0 ∨ in_bar = 2) then
        render_kick ops out sr t (18/100) 75 45 else out
      let out := if is_beat ∧ (in_bar = 1 ∨ in_bar = 3) then
        render_snare ops out sr (t + 5/1000) (14/100) (6/10) else out
      let out := render_hat ops out sr t (5/100) (25/100)
      render_drums_loop ops sr spb eighth total_secs fuel (idx + 1) out
    else out

/-- melody_synth::render_drums. -/
def render_drums (ops : FloatOps) (out : List ℚ) (sr : Nat) (bpm : ℚ) : List ℚ :=
  let spb := 60 / bpm
  let eighth := spb / 2
  let total_secs := (out.length : ℚ) / (sr : ℚ)
  render_drums_loop ops sr spb eighth total_secs (8 * out.length + 8) 0 out

/- =========================
   melody-synth: normalization, WAV samples, top-level render
   ========================= -/

/-- The peak-absolute-sample fold used by normalize_soft and analyze_mono. -/
def list_peak (buf : List ℚ) : ℚ :=
  buf.foldl (fun a x => max a |x|) 0

/-- melody_synth::normalize_soft. -/
def normalize_soft (buf : List ℚ) (target_peak : ℚ) : List ℚ :=
  let peak := list_peak buf
  if target_peak < peak ∧ (1/1000000000 : ℚ) < peak then
    let k := target_peak / peak
    buf.map (fun x => x * k)
  else buf

/-- melody_synth::write_wav_i16, modelled up to the WAV container: the
sequence of 16-bit samples written into the file body.  The container
bytes around them are a fixed deterministic function of this list and
the sample rate (the hound crate, an external collaborator). -/
def write_wav_i16 (buf : List ℚ) : List Int :=
  buf.map (fun s => ratTrunc (qClamp (s * 32767) (-32768) 32767))

/-- The per-event rendering loop of melody_synth::render_wav_bytes_styled
(step 5 of the pipeline), including the section-based layer rotation. -/
def render_notes_loop (ops : FloatOps) (specs : List LayerSpec) (sr : Nat) :
    List NoteEv → Nat → List ℚ → List ℚ
  | [], _, out => out
  | ev :: rest, idx, out =>
    let sec_idx := (Int.floor (ev.t_on / 8)).toNat
    let rotated := if specs = [] then specs
      else rotate_left specs ((sec_idx + idx / 32) % specs.length)
    let g_time := 9/10 + 1/10 * |ops.sin (ev.t_on * (13/10))|
    let out := rotated.foldl (fun o spec =>
      render_note ops o sr
        (midi_pitch_to_hz ops ev.pitch * cents_to_ratio ops spec.detune_cents)
        ev.t_on ev.t_off ((ev.velocity : ℚ) / 127 * spec.gain * g_time) spec.osc) out
    render_notes_loop ops specs sr rest (idx + 1) out

/-- melody_synth::render_wav_bytes_styled, producing the 16-bit sample
sequence of the WAV body. -/
def render_wav_bytes_styled (ops : FloatOps) (midi : MonophonicMidi) (sr : Nat)
    (style : StyleParams) : Except String (List Int) :=
  if style.layering = [] then
    Except.error "StyleParams.layering must contain at least one oscillator"
  else
    match collect_events midi with
    | Except.error e => Except.error e
    | Except.ok events =>
      let bpm := (estimate_bpm events).getD 120
      let events := apply_swing_and_humanize events style.swing style.humanize bpm
      let events := if 1 < style.polyphony then
        expand_polyphony events style.polyphony style.scale else events
      let total_len := calc_total_len events
      let total_samples := (Int.ceil (total_len * (sr : ℚ))).toNat + sr / 2
      let out := List.replicate total_samples (0 : ℚ)
      let specs := layering_specs style.layering
      let out := render_notes_loop ops specs sr events 0 out
      let out := if style.percussion then render_drums ops out sr bpm else out
      let out := normalize_soft out (99/100)
      Except.ok (write_wav_i16 out)

/- =========================
   crates/audio-features: report types
   ========================= -/

/-- audio_features::F0Stats. -/
structure F0Stats where
  mean_hz : ℚ
  std_hz : ℚ
  voiced_ratio : ℚ
  deriving DecidableEq

/-- audio_features::AudioFeatures. -/
structure AudioFeatures where
  rms : ℚ
  peak : ℚ
  crest_factor : ℚ
  zcr : ℚ
  onset_rate : ℚ
  tempo_bpm : ℚ
  spectral_centroid_hz : ℚ
  spectral_rolloff85_hz : ℚ
  spectral_rolloff95_hz : ℚ
  spectral_flatness : ℚ
  spectral_bandwidth_hz : ℚ
  spectral_entropy : ℚ
  amplitude_entropy : ℚ
  f0 : F0Stats
  deriving DecidableEq

/-- audio_features::FeatureExtractor. -/
structure FeatureExtractor where
  target_sr : Nat
  frame_size : Nat
  hop_size : Nat
  deriving DecidableEq

/- =========================
   audio-features: per-frame helpers
   ========================= -/

/-- The Hann window vector built at the start of analyze_mono. -/
def hann_window (ops : FloatOps) (fs : Nat) : List ℚ :=
  (List.range fs).map (fun i =>
    1/2 - 1/2 * ops.cos (2 * ops.pi * (i : ℚ) / (fs : ℚ)))

/-- One-sided magnitude spectrum of one frame: Hann-window the frame into a
complex buffer, run the (abstract) forward FFT and take the magnitudes of
bins `0..=fs/2`.  In the Rust code the in-range indexing `buf[k]` cannot
fail because the FFT preserves the buffer length; the model reads with a
`(0, 0)` default. -/
def frame_mags (ops : FloatOps) (fs : Nat) (window frame : List ℚ) : List ℚ :=
  let buf := (frame.zip window).map (fun p => (p.1 * p.2, (0 : ℚ)))
  let fout := ops.fft buf
  (List.range (fs / 2 + 1)).map (fun k =>
    let c := fout.getD k (0, 0)
    ops.sqrt (c.1 * c.1 + c.2 * c.2))

/-- The rolloff computation of analyze_mono (the `r85`/`r95` loop with its
zero-as-unset markers and the `break` once `r95` is assigned), returning
the pair of bin indices `(r85, r95)`.  The inner loop walks the magnitude
list with the running index `k`, the cumulative sum, and the two markers. -/
def rolloff_loop (thr85 thr95 : ℚ) : List ℚ → Nat → ℚ → Nat → Nat → Nat × Nat
  | [], _, _, r85, r95 => (r85, r95)
  | m :: rest, k, csum, r85, r95 =>
    let csum := csum + m
    let r85 := if r85 = 0 ∧ thr85 ≤ csum then k else r85
    if r95 = 0 ∧ thr95 ≤ csum then (r85, k)
    else rolloff_loop thr85 thr95 rest (k + 1) csum r85 r95

/-- The rolloff section of analyze_mono for one frame's magnitudes:
bins `(r85, r95)`, both 0 when the total magnitude is not positive. -/
def rolloff_bins (mags : List ℚ) : Nat × Nat :=
  let total := mags.sum
  let thr85 := 85/100 * total
  let thr95 := 95/100 * total
  if 0 < total then rolloff_loop thr85 thr95 mags 0 0 0 0 else (0, 0)

/-- Per-frame outputs accumulated by the spectral loop of analyze_mono. -/
structure FrameState where
  centroid_sum : ℚ
  roll85_sum : ℚ
  roll95_sum : ℚ
  flatness_sum : ℚ
  bandwidth_sum : ℚ
  spec_entropy_sum : ℚ
  prev_mag : List ℚ
  flux_vals : List ℚ
  deriving DecidableEq

/-- The body of the per-frame spectral loop of analyze_mono. Rational
division is total (`0 / 0 = 0`), so `h_norm` silently maps the
`frame_size = 1` case — where the program divides by `ln 1 = 0` and
obtains an f64 NaN that `clamp` propagates — to `0`; theorems about the
entropy field therefore assume `2 ≤ frame_size`, where the divisor is
`ln (fs/2+1) > 0` and the model is faithful. -/
def frame_step (ops : FloatOps) (sr fs : Nat) (window : List ℚ)
    (st : FrameState) (frame : List ℚ) : FrameState :=
  let mag := frame_mags ops fs window frame
  let wsum := mag.sum
  let ksum := (mag.enum.map (fun p => p.2 * (p.1 : ℚ))).sum
  let centroid_bin := if 0 < wsum then ksum / wsum else 0
  let centroid_hz := centroid_bin * (sr : ℚ) / (fs : ℚ)
  let var := (mag.enum.map (fun p => p.2 * ((p.1 : ℚ) - centroid_bin) *
    ((p.1 : ℚ) - centroid_bin))).sum
  let bw_bin := if 0 < wsum then ops.sqrt (var / wsum) else 0
  let bw_hz := bw_bin * (sr : ℚ) / (fs : ℚ)
  let rolls := rolloff_bins mag
  let eps : ℚ := 1/1000000000000
  let geo := ops.exp ((mag.map (fun m => ops.ln (m + eps))).sum / (mag.length : ℚ))
  let arith := (wsum + eps) / (mag.length : ℚ)
  let flat := qClamp (geo / arith) 0 1
  let total_p := wsum + eps
  let p := mag.map (fun m => m / total_p)
  let h := -(p.map (fun pi => if 0 < pi then pi * ops.ln pi else 0)).sum
  let h_norm := qClamp (h / ops.ln (mag.length : ℚ)) 0 1
  let flux := ((mag.enum.map (fun q => max (q.2 - st.prev_mag.getD q.1 0) 0))).sum
  { centroid_sum := st.centroid_sum + centroid_hz
    roll85_sum := st.roll85_sum + (rolls.1 : ℚ) * (sr : ℚ) / (fs : ℚ)
    roll95_sum := st.roll95_sum + (rolls.2 : ℚ) * (sr : ℚ) / (fs : ℚ)
    flatness_sum := st.flatness_sum + flat
    bandwidth_sum := st.bandwidth_sum + bw_hz
    spec_entropy_sum := st.spec_entropy_sum + h_norm
    prev_mag := mag
    flux_vals := st.flux_vals ++ [flux] }

/-- The frames visited by analyze_mono: frame `fi` is
`mono[fi*hop .. fi*hop + fs]`. -/
def frames_of (mono : List ℚ) (fs hop n_frames : Nat) : List (List ℚ) :=
  (List.range n_frames).map (fun fi => (mono.drop (fi * hop)).take fs)

/- =========================
   audio-features: onset rate, tempo, amplitude entropy
   ========================= -/

/-- The onset counting of analyze_mono: flux values above the adaptive
threshold `1.5 * mean flux`. -/
def onset_count (flux_vals : List ℚ) : Nat :=
  let mean_flux := if flux_vals ≠ [] then flux_vals.sum / (flux_vals.length : ℚ) else 0
  let thr := mean_flux * (3/2)
  (flux_vals.filter (fun f => thr < f)).length

/-- The flux autocorrelation at one lag (tempo block of analyze_mono). -/
def ac_at (flux_vals : List ℚ) (lag : Nat) : ℚ :=
  let s := ((List.range (flux_vals.length - lag)).map (fun t =>
    flux_vals.getD (lag + t) 0 * flux_vals.getD t 0)).sum
  let c := flux_vals.length - lag
  if 0 < c then s / (c : ℚ) else 0

/-- The tempo estimate of analyze_mono: best-correlated lag whose BPM lies
in [50, 200], scanning lags `1 .. flux_vals.length`. -/
def tempo_bpm_of (flux_vals : List ℚ) (sr hop : Nat) : ℚ :=
  if flux_vals.length < 4 then 0 else
  let fps := (sr : ℚ) / (hop : ℚ)
  let best := ((List.range (flux_vals.length - 1)).map (· + 1)).foldl
    (fun (b : ℚ × ℚ) (lag : Nat) =>
      let period_sec := (lag : ℚ) / fps
      if period_sec ≤ 0 then b else
      let cand_bpm := 60 / period_sec
      if 50 ≤ cand_bpm ∧ cand_bpm ≤ 200 ∧ b.2 < ac_at flux_vals lag then
        (cand_bpm, ac_at flux_vals lag) else b)
    ((0 : ℚ), (0 : ℚ))
  best.1

/-- The 64-bin histogram of the amplitude-entropy block of analyze_mono. -/
def amp_hist (mono : List ℚ) : List Nat :=
  mono.foldl (fun h x =>
    let v := (ratTrunc (qClamp ((x * (1/2) + 1/2) * 63) 0 63)).toNat
    h.set v (h.getD v 0 + 1)) (List.replicate 64 0)

/-- The amplitude entropy of analyze_mono. -/
def amp_entropy_of (ops : FloatOps) (mono : List ℚ) : ℚ :=
  let hist := amp_hist mono
  let total := mono.length
  if total = 0 then 0 else
  let h := (hist.map (fun (c : Nat) =>
    if c = 0 then 0 else
    let p := (c : ℚ) / (total : ℚ);
    (-(p * ops.ln p)))).sum
  h / ops.ln 64

/- =========================
   audio-features: F0 (YIN-lite) block
   ========================= -/

/-- The per-window computation of the F0 block of analyze_mono: mean-removed
energy and the best (score, lag) of the normalized autocorrelation search
over lags `[max (sr/400) 2, sr/60)`. -/
def window_stats (mono : List ℚ) (sr : Nat) (i win : Nat) : ℚ × ℚ × Nat :=
  let fr := (mono.drop i).take win
  let mean := fr.sum / (fr.length : ℚ)
  let energy := (fr.map (fun x => (x - mean) * (x - mean))).sum / (fr.length : ℚ)
  let lo := max (sr / 400) 2
  let hi := sr / 60
  let best := ((List.range (hi - lo)).map (· + lo)).foldl
    (fun b p =>
      let s := ((List.range (fr.length - p)).map (fun t =>
        (fr.getD (p + t) 0 - mean) * (fr.getD t 0 - mean))).sum
      let c := fr.length - p
      let s := if 0 < c then s / (c : ℚ) else s
      if b.1 < s then (s, p) else b)
    ((0 : ℚ), (0 : Nat))
  (energy, best.1, best.2)

/-- The window loop of the F0 block: starting positions `i, i+step, ...`
while `i + win ≤ mono.length`, collecting the pitch of each voiced window
and the voiced count.  The loop advances by `step = max hop 256 ≥ 1` each
iteration, so the fuel `mono.length + 1` supplied by `f0_stats` never runs
out. -/
def f0_loop (mono : List ℚ) (sr win step : Nat) : Nat → Nat → List ℚ × Nat
  | 0, _ => ([], 0)
  | fuel + 1, i =>
    if i + win ≤ mono.length then
      let ws := window_stats mono sr i win
      let rest := f0_loop mono sr win step fuel (i + step)
      if 1/10000 < ws.1 ∧ 1/10000 < ws.2.1 then
        (((sr : ℚ) / ((max ws.2.2 1 : Nat) : ℚ)) :: rest.1, rest.2 + 1)
      else rest
    else ([], 0)

/-- The F0 (YIN-lite) block of analyze_mono. -/
def f0_stats (ops : FloatOps) (mono : List ℚ) (sr hop : Nat) : F0Stats :=
  let win := max (sr / 50) 1024
  let step := max hop 256
  let fl := f0_loop mono sr win step (mono.length + 1) 0
  let f0s := fl.1
  let voiced := fl.2
  if f0s = [] then { mean_hz := 0, std_hz := 0, voiced_ratio := 0 }
  else
    let m := f0s.sum / (f0s.length : ℚ)
    let v := (f0s.map (fun x => (x - m) * (x - m))).sum / (f0s.length : ℚ)
    { mean_hz := m, std_hz := ops.sqrt v,
      voiced_ratio := qClamp ((voiced : ℚ) / ((max (mono.length / step) 1 : Nat) : ℚ)) 0 1 }

/- =========================
   audio-features: analyze_mono
   ========================= -/

/-- The body of FeatureExtractor::analyze_mono after the empty-signal
check (always succeeds). -/
def analyze_core (ops : FloatOps) (ex : FeatureExtractor) (mono : List ℚ) (sr : Nat) :
    AudioFeatures :=
  let n := mono.length
  let sum2 := (mono.map (fun x => x * x)).sum
  let peak := list_peak mono
  let rms := ops.sqrt (sum2 / (n : ℚ))
  let crest := if 0 < rms then peak / rms else 0
  let zc := ((mono.zip mono.tail).filter (fun w =>
    (0 ≤ w.1 ∧ w.2 < 0) ∨ (w.1 < 0 ∧ 0 ≤ w.2))).length
  let zcr := (zc : ℚ) * (sr : ℚ) / ((max (n - 1) 1 : Nat) : ℚ)
  let fs := ex.frame_size
  let hop := ex.hop_size
  let n_frames := if n < fs then 0 else 1 + (n - fs) / hop
  if n_frames = 0 then
    { rms := rms, peak := peak, crest_factor := crest, zcr := zcr,
      onset_rate := 0, tempo_bpm := 0,
      spectral_centroid_hz := 0, spectral_rolloff85_hz := 0,
      spectral_rolloff95_hz := 0, spectral_flatness := 0,
      spectral_bandwidth_hz := 0, spectral_entropy := 0,
      amplitude_entropy := 0,
      f0 := { mean_hz := 0, std_hz := 0, voiced_ratio := 0 } }
  else
    let window := hann_window ops fs
    let init : FrameState :=
      { centroid_sum := 0, roll85_sum := 0, roll95_sum := 0, flatness_sum := 0,
        bandwidth_sum := 0, spec_entropy_sum := 0,
        prev_mag := List.replicate (fs / 2 + 1) 0, flux_vals := [] }
    let st := (frames_of mono fs hop n_frames).foldl (frame_step ops sr fs window) init
    let flux_vals := st.flux_vals
    let onsets := onset_count flux_vals
    let secs := (n : ℚ) / (sr : ℚ)
    let onset_rate := if 0 < secs then (onsets : ℚ) / secs else 0
    let bpm := tempo_bpm_of flux_vals sr hop
    let amp_entropy := amp_entropy_of ops mono
    let f0 := f0_stats ops mono sr hop
    { rms := rms, peak := peak, crest_factor := crest, zcr := zcr,
      onset_rate := onset_rate, tempo_bpm := bpm,
      spectral_centroid_hz := st.centroid_sum / (n_frames : ℚ),
      spectral_rolloff85_hz := st.roll85_sum / (n_frames : ℚ),
      spectral_rolloff95_hz := st.roll95_sum / (n_frames : ℚ),
      spectral_flatness := st.flatness_sum / (n_frames : ℚ),
      spectral_bandwidth_hz := st.bandwidth_sum / (n_frames : ℚ),
      spectral_entropy := st.spec_entropy_sum / (n_frames : ℚ),
      amplitude_entropy := amp_entropy,
      f0 := f0 }

/-- FeatureExtractor::analyze_mono: fails with the empty-signal error when
the buffer is empty or the sample rate is 0, otherwise runs the (total)
analysis body. -/
def analyze_mono (ops : FloatOps) (ex : FeatureExtractor) (mono : List ℚ) (sr : Nat) :
    Except String AudioFeatures :=
  if mono = [] ∨ sr = 0 then Except.error "empty signal"
  else Except.ok (analyze_core ops ex mono sr)

/- =========================
   Specification-side definitions (from the spec's words, for refinement
   comparisons) and concrete instances used by witnesses/counterexamples
   ========================= -/

/-- Modelled from the spec: the index of the first element at which the
cumulative sum (starting from `csum`) reaches `thr`; the list length if it
never does. -/
def firstIdxGeAux (thr csum : ℚ) : List ℚ → Nat
  | [] => 0
  | m :: rest => if thr ≤ csum + m then 0 else 1 + firstIdxGeAux thr (csum + m) rest

/-- Modelled from the spec: the smallest bin index `k` such that the
cumulative magnitude sum over bins `0..k` reaches `thr`. -/
def firstIdxGe (mags : List ℚ) (thr : ℚ) : Nat := firstIdxGeAux thr 0 mags

/-- The starting positions examined by the F0 window loop from position `i`:
`i, i + step, ...` while the full window fits in the buffer. -/
def f0_starts (n win step i : Nat) : List Nat :=
  (List.range (if i + win ≤ n then (n - win - i) / step + 1 else 0)).map
    (fun k => i + k * step)

/-- Whether the F0 window starting at `i` is voiced (energy and best
autocorrelation score both above 1e-4). -/
def is_voiced_at (mono : List ℚ) (sr win i : Nat) : Bool :=
  let ws := window_stats mono sr i win
  decide ((1:ℚ)/10000 < ws.1 ∧ (1:ℚ)/10000 < ws.2.1)

/-- Modelled from the spec: the number of analysis windows actually examined
by the F0 loop. -/
def f0_examined_count (mono : List ℚ) (sr hop : Nat) : Nat :=
  (f0_starts mono.length (max (sr / 50) 1024) (max hop 256) 0).length

/-- Modelled from the spec: the number of voiced analysis windows. -/
def f0_voiced_count (mono : List ℚ) (sr hop : Nat) : Nat :=
  let win := max (sr / 50) 1024
  let step := max hop 256
  ((f0_starts mono.length win step 0).filter (fun i => is_voiced_at mono sr win i)).length

/-- The all-zero feature report (fallback for reading a result). -/
def zeroFeatures : AudioFeatures :=
  { rms := 0, peak := 0, crest_factor := 0, zcr := 0, onset_rate := 0, tempo_bpm := 0,
    spectral_centroid_hz := 0, spectral_rolloff85_hz := 0, spectral_rolloff95_hz := 0,
    spectral_flatness := 0, spectral_bandwidth_hz := 0, spectral_entropy := 0,
    amplitude_entropy := 0, f0 := { mean_hz := 0, std_hz := 0, voiced_ratio := 0 } }

/-- Read the report out of an analysis result (zero report on error). -/
def resultFeatures (e : Except String AudioFeatures) : AudioFeatures :=
  e.toOption.getD zeroFeatures

/-- A concrete instance of the abstract float operations, used to evaluate
the engines at concrete inputs. -/
def ops0 : FloatOps :=
  { pi := pi32, sin := fun _ => 0, cos := fun _ => 1, sqrt := id,
    ln := fun x => x - 1, exp := fun x => x + 1, powf := fun _ _ => 1, fft := id }

/-- A concrete all-zero four-sample buffer. -/
def zeros4 : List ℚ := List.replicate 4 0

/-- A concrete extractor configuration: frame size 4, hop size 2. -/
def ex0 : FeatureExtractor := { target_sr := 22050, frame_size := 4, hop_size := 2 }

/-- A concrete period-2 alternating buffer of 1024 samples ±0.1, which makes
exactly one F0 analysis window, and that window voiced. -/
def altBuf : List ℚ :=
  (List.range 1024).map (fun i => if i % 2 = 0 then (1:ℚ)/10 else -(1/10))

/-- A concrete note event of duration 1 s. -/
def ev_d1 : NoteEv := { pitch := 60, t_on := 0, t_off := 1, velocity := 100 }

/-- A concrete note event at the top of the MIDI pitch range. -/
def ev127 : NoteEv := { pitch := 127, t_on := 0, t_off := 1, velocity := 100 }

/-- A concrete pair of note events that is not ordered by start time. -/
def evA : NoteEv := { pitch := 60, t_on := 1, t_off := 2, velocity := 90 }

/-- See `evA`. -/
def evB : NoteEv := { pitch := 62, t_on := 0, t_off := 1/2, velocity := 80 }

/-- A concrete timeline whose single note has `end == start`. -/
def midi0 : MonophonicMidi :=
  { notes := [{ pitch := 60, start := 1, end_ := 1, velocity := 100 }], tempo_bpm := 120 }

/-- A concrete timeline with one short valid note. -/
def midi1 : MonophonicMidi :=
  { notes := [{ pitch := 60, start := 0, end_ := 1/10, velocity := 100 }], tempo_bpm := 120 }

/- =========================
   Helper lemmas
   ========================= -/

theorem qClamp_bounds (x lo hi : ℚ) (h : lo ≤ hi) :
    lo ≤ qClamp x lo hi ∧ qClamp x lo hi ≤ hi :=
  ⟨le_min (le_max_right _ _) h, min_le_right _ _⟩

theorem list_peak_aux_le (l : List ℚ) : ∀ a : ℚ, a ≤ l.foldl (fun a x => max a |x|) a := by
  induction l with
  | nil => intro a; exact le_rfl
  | cons x xs ih =>
    intro a
    exact le_trans (le_max_left a |x|) (ih (max a |x|))

theorem list_peak_nonneg (l : List ℚ) : 0 ≤ list_peak l :=
  list_peak_aux_le l 0

theorem list_peak_map_mul_aux (k : ℚ) (hk : 0 ≤ k) (l : List ℚ) :
    ∀ a : ℚ, (l.map (fun x => x * k)).foldl (fun a x => max a |x|) (k * a) =
      k * l.foldl (fun a x => max a |x|) a := by
  induction l with
  | nil => intro a; rfl
  | cons x xs ih =>
    intro a
    simp only [List.map_cons, List.foldl_cons]
    have habs : |x * k| = k * |x| := by
      rw [abs_mul, abs_of_nonneg hk, mul_comm]
    rw [habs, ← mul_max_of_nonneg _ _ hk, ih (max a |x|)]

theorem list_peak_map_mul (k : ℚ) (hk : 0 ≤ k) (l : List ℚ) :
    list_peak (l.map (fun x => x * k)) = k * list_peak l := by
  have := list_peak_map_mul_aux k hk l 0
  simpa [list_peak] using this

/- =========================
   C1: determinism of the styled render
   ========================= -/

/-- C1: two invocations of the synthesis render with identical timeline,
sample rate and style arguments produce identical output sample sequences:
the embedded engine (jitter and drum noise included, all derived from the
pure integer-mixing hash `rand_hash` of local indices) is a pure function
of its inputs, with no hidden state. -/
theorem render_styled_deterministic (ops : FloatOps) (midi : MonophonicMidi) (sr : Nat)
    (style : StyleParams) (out1 out2 : Except String (List Int))
    (h1 : render_wav_bytes_styled ops midi sr style = out1)
    (h2 : render_wav_bytes_styled ops midi sr style = out2) : out1 = out2 :=
  h1.symm.trans h2

theorem render_styled_deterministic_witness :
    render_wav_bytes_styled ops0 midi1 10 defaultStyle =
      render_wav_bytes_styled ops0 midi1 10 defaultStyle :=
  render_styled_deterministic ops0 midi1 10 defaultStyle _ _ rfl rfl

/- =========================
   C2: analyze_mono fails exactly on empty signal
   ========================= -/

/-- C2: for frame and hop sizes at least 1, analyze_mono fails with the
empty-signal error exactly when the buffer is empty or the sample rate is
0, and returns a complete report exactly otherwise (no other error). -/
theorem analyze_mono_empty_iff (ops : FloatOps) (ex : FeatureExtractor) (mono : List ℚ)
    (sr : Nat) (hfs : 1 ≤ ex.frame_size) (hhop : 1 ≤ ex.hop_size) :
    ((analyze_mono ops ex mono sr = Except.error "empty signal") ↔ (mono = [] ∨ sr = 0)) ∧
    ((∃ r, analyze_mono ops ex mono sr = Except.ok r) ↔ (mono ≠ [] ∧ sr ≠ 0)) := by
  unfold analyze_mono
  split_ifs with h
  · constructor
    · simp [h]
    · constructor
      · rintro ⟨r, hr⟩; cases hr
      · intro hc
        rcases h with h | h
        · exact absurd h hc.1
        · exact absurd h hc.2
  · push_neg at h
    constructor
    · constructor
      · intro hr; cases hr
      · intro hc
        rcases hc with hc | hc
        · exact absurd hc h.1
        · exact absurd hc h.2
    · exact ⟨fun _ => h, fun _ => ⟨analyze_core ops ex mono sr, rfl⟩⟩

theorem analyze_mono_empty_iff_witness :
    1 ≤ ex0.frame_size ∧ 1 ≤ ex0.hop_size ∧
    (((analyze_mono ops0 ex0 zeros4 8 = Except.error "empty signal") ↔
      (zeros4 = [] ∨ (8 : Nat) = 0)) ∧
     ((∃ r, analyze_mono ops0 ex0 zeros4 8 = Except.ok r) ↔
      (zeros4 ≠ [] ∧ (8 : Nat) ≠ 0))) :=
  ⟨by decide, by decide, analyze_mono_empty_iff ops0 ex0 zeros4 8 (by decide) (by decide)⟩

/- =========================
   C4: the no-notes error and the zero-duration boundary
   ========================= -/

/-- C4 counterexample: a timeline containing exactly one note with
`end == start` does NOT render successfully as a silent buffer; the note is
dropped and the render then fails with the no-notes error, even though the
timeline is not empty. -/
theorem render_zero_duration_note_errors :
    render_wav_bytes_styled ops0 midi0 8 defaultStyle =
      Except.error "No notes in MonophonicMidi (collect_events)" ∧
    midi0.notes ≠ [] := by
  constructor
  · rfl
  · decide

/-- C4 (amended): for a nonempty layering, the render fails with the
no-notes error exactly when every note of the timeline has `end ≤ start`
(in particular a timeline whose only note has `end == start` fails with
this error instead of producing a silent buffer); with at least one note
of positive duration it succeeds. -/
theorem render_no_valid_notes_iff (ops : FloatOps) (midi : MonophonicMidi) (sr : Nat)
    (style : StyleParams) (hl : style.layering ≠ []) :
    (render_wav_bytes_styled ops midi sr style =
      Except.error "No notes in MonophonicMidi (collect_events)") ↔
    (∀ n ∈ midi.notes, n.end_ ≤ n.start) := by
  unfold render_wav_bytes_styled collect_events
  rw [if_neg hl]
  by_cases h : (midi.notes.filter fun n => n.start < n.end_) = []
  · simp only [h, List.map_nil, if_pos rfl]
    rw [List.filter_eq_nil] at h
    constructor
    · intro _ n hn
      exact not_lt.mp (by simpa using h n hn)
    · intro _; rfl
  · have hmap : (midi.notes.filter fun n => n.start < n.end_).map
        (fun n => { pitch := n.pitch, t_on := n.start, t_off := n.end_,
                    velocity := n.velocity : NoteEv }) ≠ [] := by
      simpa [List.map_eq_nil] using h
    rw [if_neg hmap]
    constructor
    · intro hr; cases hr
    · intro hall
      exfalso
      apply h
      rw [List.filter_eq_nil]
      intro n hn
      simpa using not_lt.mpr (hall n hn)

theorem render_no_valid_notes_iff_witness :
    defaultStyle.layering ≠ [] ∧
    ((render_wav_bytes_styled ops0 midi0 8 defaultStyle =
      Except.error "No notes in MonophonicMidi (collect_events)") ↔
     (∀ n ∈ midi0.notes, n.end_ ≤ n.start)) :=
  ⟨by decide, render_no_valid_notes_iff ops0 midi0 8 defaultStyle (by decide)⟩

/- =========================
   C5: the inferred tempo formula
   ========================= -/

/-- C5 counterexample: for a single note of duration 1 s, the engine infers
120 BPM, not the claimed `60 / (2 * d)` clamped to [50, 200] (which would
be 50 BPM). -/
theorem estimate_bpm_not_inverse_formula :
    estimate_bpm [ev_d1] = some 120 ∧
    median_dur [ev_d1] = 1 ∧
    qClamp (60 / (2 * 1)) 50 200 = 50 ∧
    (120 : ℚ) ≠ 50 :=
  ⟨by with_unfolding_all rfl, by with_unfolding_all rfl,
   by with_unfolding_all rfl, by norm_num⟩

/-- C5 (amended): for a nonempty event list whose median duration `d`
(the element at index `len / 2` of the sorted duration list) is positive,
the inferred tempo is `60 * max (2 * d) 0.1` clamped to [50, 200] — i.e.
proportional to the median duration, not `60 / (2 * d)` — and always lies
in [50, 200]. -/
theorem estimate_bpm_spec (evs : List NoteEv) (hne : evs ≠ [])
    (hmed : 0 < median_dur evs) :
    estimate_bpm evs = some (qClamp (60 * max (2 * median_dur evs) (1/10)) 50 200) ∧
    50 ≤ qClamp (60 * max (2 * median_dur evs) (1/10)) 50 200 ∧
    qClamp (60 * max (2 * median_dur evs) (1/10)) 50 200 ≤ 200 := by
  refine ⟨?_, (qClamp_bounds _ 50 200 (by norm_num)).1, (qClamp_bounds _ 50 200 (by norm_num)).2⟩
  unfold estimate_bpm
  rw [if_neg hne, if_neg (not_le.mpr hmed)]
  have hdiv : median_dur evs / (1/2) = 2 * median_dur evs := by ring
  rw [hdiv]

theorem estimate_bpm_spec_witness :
    ([ev_d1] ≠ ([] : List NoteEv)) ∧ 0 < median_dur [ev_d1] ∧
    (estimate_bpm [ev_d1] = some (qClamp (60 * max (2 * median_dur [ev_d1]) (1/10)) 50 200) ∧
     50 ≤ qClamp (60 * max (2 * median_dur [ev_d1]) (1/10)) 50 200 ∧
     qClamp (60 * max (2 * median_dur [ev_d1]) (1/10)) 50 200 ≤ 200) :=
  ⟨by decide, of_decide_eq_true (by with_unfolding_all rfl),
   estimate_bpm_spec [ev_d1] (by decide) (of_decide_eq_true (by with_unfolding_all rfl))⟩

/- =========================
   C8: soft normalization
   ========================= -/

/-- C8: soft normalization is postcondition-exact: when the peak exceeds
0.99 the buffer is scaled so the new peak is exactly 0.99; when the peak is
at or below 0.99 the buffer is returned unchanged; and the output peak
never exceeds `max (input peak) 0.99`. -/
theorem normalize_soft_spec (buf : List ℚ) :
    ((99/100 : ℚ) < list_peak buf →
      normalize_soft buf (99/100) = buf.map (fun x => x * (99/100 / list_peak buf)) ∧
      list_peak (normalize_soft buf (99/100)) = 99/100) ∧
    (list_peak buf ≤ 99/100 → normalize_soft buf (99/100) = buf) ∧
    list_peak (normalize_soft buf (99/100)) ≤ max (list_peak buf) (99/100) := by
  by_cases h : (99/100 : ℚ) < list_peak buf
  · have hpos : (0 : ℚ) < list_peak buf := lt_trans (by norm_num) h
    have hsmall : (1/1000000000 : ℚ) < list_peak buf := lt_trans (by norm_num) h
    have heq : normalize_soft buf (99/100) =
        buf.map (fun x => x * (99/100 / list_peak buf)) := by
      unfold normalize_soft
      rw [if_pos ⟨h, hsmall⟩]
    have hk : (0 : ℚ) ≤ 99/100 / list_peak buf :=
      div_nonneg (by norm_num) (le_of_lt hpos)
    have hpk : list_peak (normalize_soft buf (99/100)) = 99/100 := by
      rw [heq, list_peak_map_mul _ hk, div_mul_cancel₀]
      exact ne_of_gt hpos
    refine ⟨fun _ => ⟨heq, hpk⟩, fun h' => absurd h (not_lt.mpr h'), ?_⟩
    rw [hpk]
    exact le_max_right _ _
  · have heq : normalize_soft buf (99/100) = buf := by
      unfold normalize_soft
      rw [if_neg]
      intro hc
      exact h hc.1
    refine ⟨fun h' => absurd h' h, fun _ => heq, ?_⟩
    rw [heq]
    exact le_max_left _ _

theorem normalize_soft_spec_witness :
    (99/100 : ℚ) < list_peak [(2 : ℚ)] ∧
    (normalize_soft [(2 : ℚ)] (99/100) =
      [(2 : ℚ)].map (fun x => x * (99/100 / list_peak [(2 : ℚ)])) ∧
     list_peak (normalize_soft [(2 : ℚ)] (99/100)) = 99/100) :=
  ⟨of_decide_eq_true (by with_unfolding_all rfl),
   (normalize_soft_spec [(2 : ℚ)]).1 (of_decide_eq_true (by with_unfolding_all rfl))⟩

/- =========================
   C9: polyphony expansion
   ========================= -/

/-- C9 counterexample: transposition is clamped at pitch 127, so a note at
pitch 127 expanded with polyphony 2 in the major scale gets a clone at
pitch 127, not at `127 + 4 = 131`; and with (clamped) polyphony 1 the list
is returned unsorted, here with the first start time after the second. -/
theorem expand_polyphony_clamps_and_skips_sort :
    (expand_polyphony [ev127] 2 ScaleKind.Major).map NoteEv.pitch = [127, 127] ∧
    (127 + 4 : Nat) = 131 ∧
    ¬ (131 ∈ (expand_polyphony [ev127] 2 ScaleKind.Major).map NoteEv.pitch) ∧
    expand_polyphony [evA, evB] 1 ScaleKind.Major = [evA, evB] ∧
    ¬ evLe evA evB := by
  refine ⟨by with_unfolding_all rfl, rfl, ?_, by with_unfolding_all rfl, ?_⟩
  · intro hmem
    have : (expand_polyphony [ev127] 2 ScaleKind.Major).map NoteEv.pitch = [127, 127] := by
      with_unfolding_all rfl
    rw [this] at hmem
    simp at hmem
  · intro hle
    exact absurd hle (of_decide_eq_true (by with_unfolding_all rfl))

/-- C9 (amended): with the polyphony clamped to `v ∈ [1,3]`, the expansion
has `v` times the original number of events; for `v ≥ 2` it is sorted by
start time and is a permutation of the original list plus a clone of every
note transposed up by the scale's third, and for `v = 3` additionally by
the fifth, the transposed pitch being clamped to at most 127; clones keep
start, end and velocity; for `v = 1` the list is returned unchanged (not
resorted). -/
theorem expand_polyphony_spec (evs : List NoteEv) (voices : Nat) (scale : ScaleKind) :
    (expand_polyphony evs voices scale).length = max (min voices 3) 1 * evs.length ∧
    (max (min voices 3) 1 = 1 → expand_polyphony evs voices scale = evs) ∧
    (2 ≤ max (min voices 3) 1 →
      List.Sorted evLe (expand_polyphony evs voices scale) ∧
      (expand_polyphony evs voices scale).Perm
        (evs ++ evs.map (fun e =>
            { e with pitch := min (e.pitch + (scale_intervals scale).1) 127 }) ++
          (if 3 ≤ max (min voices 3) 1 then
            evs.map (fun e =>
              { e with pitch := min (e.pitch + (scale_intervals scale).2) 127 })
          else []))) ∧
    scale_intervals ScaleKind.Major = (4, 7) ∧ scale_intervals ScaleKind.Minor = (3, 7) := by
  have hv : max (min voices 3) 1 = 1 ∨ max (min voices 3) 1 = 2 ∨
      max (min voices 3) 1 = 3 := by omega
  have hmm : scale_intervals ScaleKind.Major = (4, 7) ∧
      scale_intervals ScaleKind.Minor = (3, 7) := ⟨rfl, rfl⟩
  rcases hv with hv | hv | hv
  · have hb : expand_polyphony evs voices scale = evs := by
      simp only [expand_polyphony]
      rw [if_pos hv]
    refine ⟨?_, fun _ => hb, fun h2 => absurd (hv ▸ h2) (by norm_num), hmm⟩
    rw [hb, hv, one_mul]
  · have hne : ¬ (max (min voices 3) 1 = 1) := by omega
    have h2 : 2 ≤ max (min voices 3) 1 := by omega
    have h3 : ¬ (3 ≤ max (min voices 3) 1) := by omega
    have hb : expand_polyphony evs voices scale =
        List.insertionSort evLe
          ((evs ++ evs.map (fun e =>
              { e with pitch := min (e.pitch + (scale_intervals scale).1) 127 })) ++ []) := by
      simp only [expand_polyphony]
      rw [if_neg hne, if_pos h2, if_neg h3]
    refine ⟨?_, fun h1 => absurd h1 hne, fun _ => ⟨?_, ?_⟩, hmm⟩
    · rw [hb, List.length_insertionSort]
      simp [hv, List.length_append, List.length_map]
      omega
    · rw [hb]; exact List.sorted_insertionSort evLe _
    · rw [hb, if_neg h3]
      have hp := List.perm_insertionSort evLe
        ((evs ++ evs.map (fun e =>
          { e with pitch := min (e.pitch + (scale_intervals scale).1) 127 })) ++ [])
      simpa using hp
  · have hne : ¬ (max (min voices 3) 1 = 1) := by omega
    have h2 : 2 ≤ max (min voices 3) 1 := by omega
    have h3 : 3 ≤ max (min voices 3) 1 := by omega
    have hb : expand_polyphony evs voices scale =
        List.insertionSort evLe
          ((evs ++ evs.map (fun e =>
              { e with pitch := min (e.pitch + (scale_intervals scale).1) 127 })) ++
            evs.map (fun e =>
              { e with pitch := min (e.pitch + (scale_intervals scale).2) 127 })) := by
      simp only [expand_polyphony]
      rw [if_neg hne, if_pos h2, if_pos h3]
    refine ⟨?_, fun h1 => absurd h1 hne, fun _ => ⟨?_, ?_⟩, hmm⟩
    · rw [hb, List.length_insertionSort]
      simp [hv, List.length_append, List.length_map]
      omega
    · rw [hb]; exact List.sorted_insertionSort evLe _
    · rw [hb, if_pos h3]
      have hp := List.perm_insertionSort evLe
        ((evs ++ evs.map (fun e =>
            { e with pitch := min (e.pitch + (scale_intervals scale).1) 127 })) ++
          evs.map (fun e =>
            { e with pitch := min (e.pitch + (scale_intervals scale).2) 127 }))
      simpa [List.append_assoc] using hp

theorem expand_polyphony_spec_witness :
    2 ≤ max (min 2 3) 1 ∧
    (List.Sorted evLe (expand_polyphony [ev_d1] 2 ScaleKind.Major) ∧
     (expand_polyphony [ev_d1] 2 ScaleKind.Major).Perm
       ([ev_d1] ++ [ev_d1].map (fun e =>
           { e with pitch := min (e.pitch + (scale_intervals ScaleKind.Major).1) 127 }) ++
         (if 3 ≤ max (min 2 3) 1 then
           [ev_d1].map (fun e =>
             { e with pitch := min (e.pitch + (scale_intervals ScaleKind.Major).2) 127 })
         else []))) :=
  ⟨by decide, (expand_polyphony_spec [ev_d1] 2 ScaleKind.Major).2.2.1 (by decide)⟩

/- =========================
   C10: percussion bursts never write out of bounds
   ========================= -/

theorem render_kick_loop_length (ops : FloatOps) (sr len : Nat) (shz ehz : ℚ)
    (start : Nat) :
    ∀ (r k : Nat) (phase : ℚ) (out : List ℚ),
      (render_kick_loop ops sr len shz ehz start k r phase out).length = out.length := by
  intro r
  induction r with
  | zero => intro k phase out; rfl
  | succ n ih =>
    intro k phase out
    rw [render_kick_loop, ih]
    exact List.length_set out _ _

theorem render_snare_loop_length (ops : FloatOps) (sr len : Nat) (tone inc : ℚ)
    (start : Nat) :
    ∀ (r k : Nat) (phase : ℚ) (out : List ℚ),
      (render_snare_loop ops sr len tone inc start k r phase out).length = out.length := by
  intro r
  induction r with
  | zero => intro k phase out; rfl
  | succ n ih =>
    intro k phase out
    rw [render_snare_loop, ih]
    exact List.length_set out _ _

theorem render_hat_loop_length (len : Nat) (gain : ℚ) (ops : FloatOps) (start : Nat) :
    ∀ (r k : Nat) (out : List ℚ),
      (render_hat_loop len gain ops start k r out).length = out.length := by
  intro r
  induction r with
  | zero => intro k out; rfl
  | succ n ih =>
    intro k out
    rw [render_hat_loop, ih]
    exact List.length_set out _ _

/-- C10: any kick, snare or hi-hat burst whose sample span is empty or
would extend past the end of the output buffer is skipped entirely (the
buffer is returned unchanged, no sample of the burst is written), and each
percussion renderer always preserves the buffer length, so percussion
never writes out of bounds. -/
theorem percussion_oob_skipped (ops : FloatOps) (out : List ℚ) (sr : Nat)
    (t1 d1 shz ehz t2 d2 tone t3 d3 g : ℚ) :
    ((qToUsize ((t1 + d1) * (sr : ℚ)) ≤ qToUsize (t1 * (sr : ℚ)) ∨
        out.length < qToUsize ((t1 + d1) * (sr : ℚ))) →
      render_kick ops out sr t1 d1 shz ehz = out) ∧
    ((qToUsize ((t2 + d2) * (sr : ℚ)) ≤ qToUsize (t2 * (sr : ℚ)) ∨
        out.length < qToUsize ((t2 + d2) * (sr : ℚ))) →
      render_snare ops out sr t2 d2 tone = out) ∧
    ((qToUsize ((t3 + d3) * (sr : ℚ)) ≤ qToUsize (t3 * (sr : ℚ)) ∨
        out.length < qToUsize ((t3 + d3) * (sr : ℚ))) →
      render_hat ops out sr t3 d3 g = out) ∧
    (render_kick ops out sr t1 d1 shz ehz).length = out.length ∧
    (render_snare ops out sr t2 d2 tone).length = out.length ∧
    (render_hat ops out sr t3 d3 g).length = out.length := by
  refine ⟨?_, ?_, ?_, ?_, ?_, ?_⟩
  · intro h
    simp only [render_kick]
    rw [if_pos h]
  · intro h
    simp only [render_snare]
    rw [if_pos h]
  · intro h
    simp only [render_hat]
    rw [if_pos h]
  · simp only [render_kick]
    split_ifs with h
    · rfl
    · exact render_kick_loop_length ops sr _ shz ehz _ _ 0 0 out
  · simp only [render_snare]
    split_ifs with h
    · rfl
    · exact render_snare_loop_length ops sr _ tone _ _ _ 0 0 out
  · simp only [render_hat]
    split_ifs with h
    · rfl
    · exact render_hat_loop_length _ g ops _ _ 0 out

theorem percussion_oob_skipped_witness :
    (qToUsize (((0 : ℚ) + 5) * ((1 : Nat) : ℚ)) ≤ qToUsize ((0 : ℚ) * ((1 : Nat) : ℚ)) ∨
      ([(0 : ℚ), 0]).length < qToUsize (((0 : ℚ) + 5) * ((1 : Nat) : ℚ))) ∧
    render_kick ops0 [(0 : ℚ), 0] 1 0 5 75 45 = [(0 : ℚ), 0] ∧
    render_snare ops0 [(0 : ℚ), 0] 1 0 5 (6/10) = [(0 : ℚ), 0] ∧
    render_hat ops0 [(0 : ℚ), 0] 1 0 5 (25/100) = [(0 : ℚ), 0] := by
  have h := percussion_oob_skipped ops0 [(0 : ℚ), 0] 1 0 5 75 45 0 5 (6/10) 0 5 (25/100)
  have hc : qToUsize (((0 : ℚ) + 5) * ((1 : Nat) : ℚ)) ≤ qToUsize ((0 : ℚ) * ((1 : Nat) : ℚ)) ∨
      ([(0 : ℚ), 0]).length < qToUsize (((0 : ℚ) + 5) * ((1 : Nat) : ℚ)) :=
    Or.inr (of_decide_eq_true (by with_unfolding_all rfl))
  exact ⟨hc, h.1 hc, h.2.1 hc, h.2.2.1 hc⟩

/- =========================
   C6: spectral rolloff bins
   ========================= -/

theorem rolloff_loop_post85 (thr85 thr95 : ℚ) :
    ∀ (l : List ℚ) (k : Nat) (c : ℚ) (r85v : Nat), r85v ≠ 0 →
      c < thr95 → thr95 ≤ c + l.sum →
      rolloff_loop thr85 thr95 l k c r85v 0 = (r85v, k + firstIdxGeAux thr95 c l) := by
  intro l
  induction l with
  | nil =>
    intro k c r85v _ hlt hle
    rw [List.sum_nil, add_zero] at hle
    exact absurd hle (not_le.mpr hlt)
  | cons m rest ih =>
    intro k c r85v h85 hlt hle
    rw [List.sum_cons, ← add_assoc] at hle
    simp only [rolloff_loop, eq_self_iff_true, true_and]
    rw [if_neg (by simp [h85] : ¬(r85v = 0 ∧ thr85 ≤ c + m))]
    by_cases hm : thr95 ≤ c + m
    · rw [if_pos hm, firstIdxGeAux, if_pos hm, Nat.add_zero]
    · rw [if_neg hm]
      rw [ih (k + 1) (c + m) r85v h85 (not_le.mp hm) hle]
      rw [firstIdxGeAux, if_neg hm]
      rw [Nat.add_assoc]

theorem rolloff_loop_lost85 (thr85 thr95 : ℚ) (l : List ℚ) (k : Nat) (c : ℚ)
    (hk : 1 ≤ k) (h85 : thr85 ≤ c) (hlt : c < thr95) (hle : thr95 ≤ c + l.sum)
    (hnn : ∀ m ∈ l, 0 ≤ m) :
    rolloff_loop thr85 thr95 l k c 0 0 = (k, k + firstIdxGeAux thr95 c l) := by
  cases l with
  | nil =>
    rw [List.sum_nil, add_zero] at hle
    exact absurd hle (not_le.mpr hlt)
  | cons m rest =>
    have hm0 : (0 : ℚ) ≤ m := hnn m (by simp)
    have h85' : thr85 ≤ c + m := le_trans h85 (le_add_of_nonneg_right hm0)
    rw [List.sum_cons, ← add_assoc] at hle
    simp only [rolloff_loop, eq_self_iff_true, true_and]
    rw [if_pos h85']
    by_cases hm : thr95 ≤ c + m
    · rw [if_pos hm, firstIdxGeAux, if_pos hm, Nat.add_zero]
    · rw [if_neg hm]
      rw [rolloff_loop_post85 thr85 thr95 rest (k + 1) (c + m) k (by omega)
        (not_le.mp hm) hle]
      rw [firstIdxGeAux, if_neg hm, Nat.add_assoc]

theorem rolloff_loop_clean (thr85 thr95 : ℚ) (h8595 : thr85 ≤ thr95) :
    ∀ (l : List ℚ) (k : Nat) (c : ℚ), 1 ≤ k → c < thr85 → thr95 ≤ c + l.sum →
      (∀ m ∈ l, 0 ≤ m) →
      rolloff_loop thr85 thr95 l k c 0 0 =
        (k + firstIdxGeAux thr85 c l, k + firstIdxGeAux thr95 c l) := by
  intro l
  induction l with
  | nil =>
    intro k c _ hlt85 hle _
    rw [List.sum_nil, add_zero] at hle
    exact absurd hle (not_le.mpr (lt_of_lt_of_le hlt85 h8595))
  | cons m rest ih =>
    intro k c hk hlt85 hle hnn
    rw [List.sum_cons, ← add_assoc] at hle
    simp only [rolloff_loop, eq_self_iff_true, true_and]
    by_cases h85m : thr85 ≤ c + m
    · rw [if_pos h85m]
      by_cases h95m : thr95 ≤ c + m
      · rw [if_pos h95m, firstIdxGeAux, firstIdxGeAux, if_pos h85m, if_pos h95m]
        simp
      · rw [if_neg h95m]
        rw [rolloff_loop_post85 thr85 thr95 rest (k + 1) (c + m) k (by omega)
          (not_le.mp h95m) hle]
        rw [firstIdxGeAux, firstIdxGeAux, if_pos h85m, if_neg h95m]
        simp [Nat.add_assoc]
    · have h95m : ¬ thr95 ≤ c + m := fun hh => h85m (le_trans h8595 hh)
      rw [if_neg h85m, if_neg h95m]
      rw [ih (k + 1) (c + m) (by omega) (not_le.mp h85m) hle
        (fun x hx => hnn x (by simp [hx]))]
      rw [firstIdxGeAux, firstIdxGeAux, if_neg h85m, if_neg h95m,
        Nat.add_assoc, Nat.add_assoc]

/-- C6 counterexample: for the magnitude frame [0.9, 0.1] the cumulative
sum reaches 85% of the total already at bin 0, yet the reported rolloff-85
bin is 1, not 0 (the code's zero-as-unset marker cannot record bin 0). -/
theorem rolloff85_not_first_bin :
    rolloff_bins [9/10, 1/10] = (1, 1) ∧
    firstIdxGe [9/10, 1/10] (85/100 * ([(9 : ℚ)/10, 1/10].sum)) = 0 ∧
    (1 : Nat) ≠ 0 :=
  ⟨by with_unfolding_all rfl, by with_unfolding_all rfl, by decide⟩

/-- C6 (amended): for nonnegative magnitudes, when the total magnitude is
not positive both rolloff bins are 0; when it is positive the rolloff-95
bin is the smallest bin whose cumulative sum reaches 95% of the total, and
the rolloff-85 bin is the smallest bin reaching 85% of the total except
when that bin is bin 0 while the 95% bin is not: then bin 1 is reported
instead (the zero-as-unset marker loses a first-bin 85% hit). -/
theorem rolloff_bins_spec (mags : List ℚ) (hnn : ∀ m ∈ mags, 0 ≤ m) :
    (mags.sum ≤ 0 → rolloff_bins mags = (0, 0)) ∧
    (0 < mags.sum →
      (rolloff_bins mags).2 = firstIdxGe mags (95/100 * mags.sum) ∧
      (rolloff_bins mags).1 = (if firstIdxGe mags (85/100 * mags.sum) = 0 ∧
          firstIdxGe mags (95/100 * mags.sum) ≠ 0 then 1
        else firstIdxGe mags (85/100 * mags.sum))) := by
  constructor
  · intro h
    unfold rolloff_bins
    rw [if_neg (not_lt.mpr h)]
  · intro h
    unfold rolloff_bins firstIdxGe
    rw [if_pos h]
    cases mags with
    | nil => simp at h
    | cons m rest =>
      have h8595 : (85/100 : ℚ) * (m :: rest).sum ≤ (95/100) * (m :: rest).sum :=
        mul_le_mul_of_nonneg_right (by norm_num) (le_of_lt h)
      have hreach : (95/100 : ℚ) * (m :: rest).sum ≤ 0 + m + rest.sum := by
        have hs : (m :: rest).sum = m + rest.sum := List.sum_cons
        rw [hs] at h ⊢
        nlinarith [h]
      simp only [rolloff_loop, eq_self_iff_true, true_and]
      by_cases h95m : (95/100 : ℚ) * (m :: rest).sum ≤ 0 + m
      · have h85m : (85/100 : ℚ) * (m :: rest).sum ≤ 0 + m := le_trans h8595 h95m
        rw [if_pos h85m, if_pos h95m]
        rw [firstIdxGeAux, firstIdxGeAux, if_pos h85m, if_pos h95m]
        simp
      · by_cases h85m : (85/100 : ℚ) * (m :: rest).sum ≤ 0 + m
        · rw [if_pos h85m, if_neg h95m]
          rw [rolloff_loop_lost85 _ _ rest 1 (0 + m) le_rfl h85m (not_le.mp h95m) hreach
            (fun x hx => hnn x (by simp [hx]))]
          rw [firstIdxGeAux, firstIdxGeAux, if_pos h85m, if_neg h95m]
          simp
        · rw [if_neg h85m, if_neg h95m]
          rw [rolloff_loop_clean _ _ h8595 rest 1 (0 + m) le_rfl (not_le.mp h85m) hreach
            (fun x hx => hnn x (by simp [hx]))]
          rw [firstIdxGeAux, firstIdxGeAux, if_neg h85m, if_neg h95m]
          simp

theorem rolloff_bins_spec_witness :
    (∀ m ∈ [(9 : ℚ)/10, 1/10], 0 ≤ m) ∧
    (0 < [(9 : ℚ)/10, 1/10].sum) ∧
    ((rolloff_bins [9/10, 1/10]).2 =
      firstIdxGe [9/10, 1/10] (95/100 * [(9 : ℚ)/10, 1/10].sum) ∧
     (rolloff_bins [9/10, 1/10]).1 =
      (if firstIdxGe [9/10, 1/10] (85/100 * [(9 : ℚ)/10, 1/10].sum) = 0 ∧
          firstIdxGe [9/10, 1/10] (95/100 * [(9 : ℚ)/10, 1/10].sum) ≠ 0 then 1
        else firstIdxGe [9/10, 1/10] (85/100 * [(9 : ℚ)/10, 1/10].sum))) :=
  ⟨by norm_num, of_decide_eq_true (by with_unfolding_all rfl),
   (rolloff_bins_spec [9/10, 1/10] (by norm_num)).2
     (of_decide_eq_true (by with_unfolding_all rfl))⟩

/- =========================
   C7: voiced ratio of the F0 block
   ========================= -/

theorem f0_starts_cons (n win step i : Nat) (hstep : 1 ≤ step) :
    f0_starts n win step i =
      (if i + win ≤ n then i :: f0_starts n win step (i + step) else []) := by
  unfold f0_starts
  by_cases h : i + win ≤ n
  · rw [if_pos h, if_pos h]
    by_cases h2 : i + step + win ≤ n
    · rw [if_pos h2]
      have hle : step ≤ n - win - i := by omega
      have hdiv : (n - win - i) / step = (n - win - i - step) / step + 1 :=
        Nat.div_eq_sub_div hstep hle
      have hsub : n - win - i - step = n - win - (i + step) := by omega
      rw [hdiv, hsub, List.range_succ_eq_map]
      simp only [List.map_cons, List.map_map]
      have hf : ((fun k => i + k * step) ∘ Nat.succ) = (fun k => i + step + k * step) := by
        funext k
        simp only [Function.comp, Nat.succ_mul]
        omega
      rw [hf]
      simp
    · rw [if_neg h2]
      have hlt : n - win - i < step := by omega
      rw [Nat.div_eq_of_lt hlt]
      have h1 : List.range 1 = [0] := rfl
      rw [h1]
      simp
  · rw [if_neg h, if_neg h]
    simp

theorem f0_loop_eq (mono : List ℚ) (sr win step : Nat) (hstep : 1 ≤ step) :
    ∀ (fuel i : Nat), mono.length + 1 - i ≤ fuel →
      f0_loop mono sr win step fuel i =
        (((f0_starts mono.length win step i).filter
            (fun j => is_voiced_at mono sr win j)).map
              (fun j => (sr : ℚ) / ((max (window_stats mono sr j win).2.2 1 : Nat) : ℚ)),
         ((f0_starts mono.length win step i).filter
            (fun j => is_voiced_at mono sr win j)).length) := by
  intro fuel
  induction fuel with
  | zero =>
    intro i hfuel
    have hni : ¬ (i + win ≤ mono.length) := by omega
    rw [f0_starts_cons _ _ _ _ hstep, if_neg hni]
    rfl
  | succ n ih =>
    intro i hfuel
    rw [f0_loop, f0_starts_cons _ _ _ _ hstep]
    by_cases h : i + win ≤ mono.length
    · rw [if_pos h, if_pos h]
      rw [ih (i + step) (by omega)]
      by_cases hv : (1 : ℚ)/10000 < (window_stats mono sr i win).1 ∧
          (1 : ℚ)/10000 < (window_stats mono sr i win).2.1
      · rw [if_pos hv]
        have hb : is_voiced_at mono sr win i = true := by
          unfold is_voiced_at
          exact decide_eq_true hv
        rw [List.filter_cons_of_pos hb, List.map_cons, List.length_cons]
      · rw [if_neg hv]
        have hb : ¬ (is_voiced_at mono sr win i = true) := by
          unfold is_voiced_at
          simpa using hv
        rw [List.filter_cons_of_neg (by simpa using hb)]
    · rw [if_neg h, if_neg h]
      rfl

/-- C7 (amended): the reported voiced ratio equals the number of voiced
windows divided by `max (buffer length / step) 1` (with `step = max hop
256`) clamped to [0, 1] — the denominator is NOT the number of windows
actually examined — and the ratio always lies in [0, 1]. -/
theorem f0_voiced_ratio_spec (ops : FloatOps) (mono : List ℚ) (sr hop : Nat) :
    (f0_stats ops mono sr hop).voiced_ratio =
      qClamp ((f0_voiced_count mono sr hop : ℚ) /
        ((max (mono.length / max hop 256) 1 : Nat) : ℚ)) 0 1 ∧
    0 ≤ (f0_stats ops mono sr hop).voiced_ratio ∧
    (f0_stats ops mono sr hop).voiced_ratio ≤ 1 := by
  have hstep : 1 ≤ max hop 256 := le_trans (by norm_num) (Nat.le_max_right hop 256)
  have hloop := f0_loop_eq mono sr (max (sr / 50) 1024) (max hop 256) hstep
    (mono.length + 1) 0 (by omega)
  have hvc : f0_voiced_count mono sr hop =
      ((f0_starts mono.length (max (sr / 50) 1024) (max hop 256) 0).filter
        (fun j => is_voiced_at mono sr (max (sr / 50) 1024) j)).length := rfl
  simp only [f0_stats]
  rw [hloop, hvc]
  by_cases hF : ((f0_starts mono.length (max (sr / 50) 1024) (max hop 256) 0).filter
      (fun j => is_voiced_at mono sr (max (sr / 50) 1024) j)) = []
  · rw [hF]
    simp [qClamp]
  · rw [if_neg (by simpa using hF)]
    simp only [List.length_map]
    refine ⟨?_, ?_, ?_⟩
    · trivial
    · exact (qClamp_bounds _ 0 1 (by norm_num)).1
    · exact (qClamp_bounds _ 0 1 (by norm_num)).2

theorem sum_map_const_q {α : Type} (l : List α) (c : ℚ) :
    (l.map (fun _ => c)).sum = l.length * c := by
  induction l with
  | nil => simp
  | cons x xs ih =>
    simp [ih]
    ring

theorem alt_sum (n : Nat) :
    ((List.range (2 * n)).map (fun i => if i % 2 = 0 then (1 : ℚ)/10 else -(1/10))).sum
      = 0 := by
  induction n with
  | zero => simp
  | succ m ih =>
    have h2 : 2 * (m + 1) = (2 * m + 1) + 1 := by ring
    rw [h2, List.range_succ, List.range_succ]
    simp only [List.map_append, List.sum_append, List.map_cons, List.map_nil,
      List.sum_cons, List.sum_nil]
    have heven : (2 * m) % 2 = 0 := by omega
    have hodd : ¬ ((2 * m + 1) % 2 = 0) := by omega
    rw [if_pos heven, if_neg hodd, ih]
    ring

theorem alt_len : altBuf.length = 1024 := by
  simp [altBuf]

theorem alt_getD (t : Nat) (ht : t < 1024) :
    altBuf.getD t 0 = (if t % 2 = 0 then (1 : ℚ)/10 else -(1/10)) := by
  unfold altBuf
  rw [List.getD_eq_getElem?_getD, List.getElem?_map, List.getElem?_range ht]
  rfl

theorem alt_sq_sum : (altBuf.map (fun x => x * x)).sum = 1024 * (1/100) := by
  unfold altBuf
  rw [List.map_map]
  have h : (List.range 1024).map
        ((fun x => x * x) ∘ (fun i => if i % 2 = 0 then (1 : ℚ)/10 else -(1/10))) =
      (List.range 1024).map (fun _ => (1/100 : ℚ)) := by
    apply List.map_congr_left
    intro i _
    by_cases hp : i % 2 = 0 <;> simp [Function.comp, hp] <;> norm_num
  rw [h, sum_map_const_q]
  simp

theorem alt_acf_sum :
    ((List.range 1022).map (fun t => altBuf.getD (2 + t) 0 * altBuf.getD t 0)).sum
      = 1022 * (1/100) := by
  have h : (List.range 1022).map (fun t => altBuf.getD (2 + t) 0 * altBuf.getD t 0) =
      (List.range 1022).map (fun _ => (1/100 : ℚ)) := by
    apply List.map_congr_left
    intro t htm
    have ht : t < 1022 := List.mem_range.mp htm
    rw [alt_getD (2 + t) (by omega), alt_getD t (by omega)]
    have hmod : (2 + t) % 2 = t % 2 := by omega
    rw [hmod]
    by_cases h2 : t % 2 = 0 <;> simp [h2] <;> norm_num
  rw [h, sum_map_const_q]
  simp

theorem window_stats_alt : window_stats altBuf 200 0 1024 = (1/100, 1/100, 2) := by
  have hfr : (altBuf.drop 0).take 1024 = altBuf := by
    rw [List.drop_zero, ← alt_len, List.take_length]
  have hsum : altBuf.sum = 0 := by
    have h := alt_sum 512
    norm_num at h
    simpa [altBuf] using h
  simp only [window_stats]
  rw [hfr, alt_len, hsum, zero_div]
  simp only [sub_zero]
  have hpr : (List.range (200 / 60 - max (200 / 400) 2)).map (· + max (200 / 400) 2)
      = [2] := by decide
  rw [hpr, List.foldl_cons, List.foldl_nil]
  have h1022 : (1024 : Nat) - 2 = 1022 := by norm_num
  rw [h1022, alt_acf_sum, alt_sq_sum]
  norm_num

/-- C7 counterexample: the 1024-sample alternating buffer at sample rate
200 with hop 256 has exactly one analysis window examined, and it is
voiced; the claimed ratio voiced/examined is 1, but the engine reports
1/4, because the denominator is `buffer length / step = 1024/256 = 4`
rather than the window count. -/
theorem voiced_ratio_denominator_mismatch :
    (f0_stats ops0 altBuf 200 256).voiced_ratio = 1/4 ∧
    f0_voiced_count altBuf 200 256 = 1 ∧
    f0_examined_count altBuf 200 256 = 1 ∧
    ((1 : ℚ)/4) ≠ 1 := by
  have hw : max (200 / 50) 1024 = 1024 := by norm_num
  have hst : max 256 256 = 256 := by norm_num
  have hstarts : f0_starts altBuf.length (max (200 / 50) 1024) (max 256 256) 0 = [0] := by
    rw [alt_len, hw, hst]
    decide
  have hv : is_voiced_at altBuf 200 (max (200 / 50) 1024) 0 = true := by
    unfold is_voiced_at
    rw [hw, window_stats_alt]
    simp only [decide_eq_true_eq]
    norm_num
  have hfilter : (f0_starts altBuf.length (max (200 / 50) 1024) (max 256 256) 0).filter
      (fun j => is_voiced_at altBuf 200 (max (200 / 50) 1024) j) = [0] := by
    rw [hstarts]
    rw [List.filter_cons_of_pos hv]
    rfl
  refine ⟨?_, ?_, ?_, by norm_num⟩
  · have hloop := f0_loop_eq altBuf 200 (max (200 / 50) 1024) (max 256 256)
      (by norm_num) (altBuf.length + 1) 0 (by omega)
    simp only [f0_stats]
    rw [hloop, hfilter]
    simp only [List.map_cons, List.map_nil, List.length_cons, List.length_nil]
    rw [if_neg (by simp)]
    rw [hw, window_stats_alt, alt_len, hst]
    norm_num [qClamp]
  · simp only [f0_voiced_count]
    rw [hfilter]
    rfl
  · simp only [f0_examined_count]
    rw [hstarts]
    rfl

/- =========================
   C3: analysis of an all-zero buffer
   ========================= -/

theorem snd_mem_of_mem_enum {α : Type} {l : List α} {p : Nat × α} (h : p ∈ l.enum) :
    p.2 ∈ l :=
  List.get?_mem (List.mem_enum_iff_get?.mp h)

theorem getD_zero_of_all_zero (l : List ℚ) (h : ∀ x ∈ l, x = 0) (k : Nat) :
    l.getD k 0 = 0 := by
  rw [List.getD_eq_getElem?_getD]
  cases hx : l[k]? with
  | none => rfl
  | some v =>
    have hv := h v (List.getElem?_mem hx)
    simp [hv]

theorem list_peak_zero (l : List ℚ) (h : ∀ x ∈ l, x = 0) : list_peak l = 0 := by
  unfold list_peak
  induction l with
  | nil => rfl
  | cons x xs ih =>
    have hx : x = 0 := h x (by simp)
    simp only [List.foldl_cons, hx, abs_zero, max_self]
    exact ih (fun y hy => h y (by simp [hy]))

theorem frame_mags_zero (ops : FloatOps) (fs : Nat) (window frame : List ℚ)
    (hframe : ∀ x ∈ frame, x = 0) (hsqrt : ops.sqrt 0 = 0)
    (hfft : ∀ l : List (ℚ × ℚ), (∀ c ∈ l, c = ((0 : ℚ), (0 : ℚ))) →
      ∀ k, (ops.fft l).getD k (0, 0) = (0, 0)) :
    frame_mags ops fs window frame = List.replicate (fs / 2 + 1) 0 := by
  unfold frame_mags
  have hbuf : ∀ c ∈ (frame.zip window).map (fun p => (p.1 * p.2, (0 : ℚ))),
      c = ((0 : ℚ), (0 : ℚ)) := by
    intro c hc
    rcases List.mem_map.mp hc with ⟨p, hp, hpc⟩
    have hp1 : p.1 ∈ frame := (List.of_mem_zip (by simpa using hp)).1
    rw [← hpc, hframe p.1 hp1, zero_mul]
  have hmap : (List.range (fs / 2 + 1)).map (fun k =>
      let c := (ops.fft ((frame.zip window).map (fun p => (p.1 * p.2, (0 : ℚ))))).getD k (0, 0)
      ops.sqrt (c.1 * c.1 + c.2 * c.2)) =
      (List.range (fs / 2 + 1)).map (fun _ => (0 : ℚ)) := by
    apply List.map_congr_left
    intro k _
    rw [hfft _ hbuf k]
    simpa using hsqrt
  rw [hmap]
  have : (List.range (fs / 2 + 1)).map (fun _ => (0 : ℚ)) =
      List.replicate (List.range (fs / 2 + 1)).length 0 := by
    induction (List.range (fs / 2 + 1)) with
    | nil => rfl
    | cons a l ih => simp [ih, List.replicate_succ]
  rw [this, List.length_range]

theorem frame_step_zero (ops : FloatOps) (sr fs : Nat) (window : List ℚ) (st : FrameState)
    (frame : List ℚ) (hframe : ∀ x ∈ frame, x = 0)
    (hprev : ∀ x ∈ st.prev_mag, x = 0)
    (hsqrt : ops.sqrt 0 = 0)
    (hexp : ops.exp (ops.ln ((1 : ℚ)/1000000000000)) = (1 : ℚ)/1000000000000)
    (hfft : ∀ l : List (ℚ × ℚ), (∀ c ∈ l, c = ((0 : ℚ), (0 : ℚ))) →
      ∀ k, (ops.fft l).getD k (0, 0) = (0, 0)) :
    frame_step ops sr fs window st frame =
      { centroid_sum := st.centroid_sum, roll85_sum := st.roll85_sum,
        roll95_sum := st.roll95_sum, flatness_sum := st.flatness_sum + 1,
        bandwidth_sum := st.bandwidth_sum, spec_entropy_sum := st.spec_entropy_sum,
        prev_mag := List.replicate (fs / 2 + 1) 0, flux_vals := st.flux_vals ++ [0] } := by
  have hmag := frame_mags_zero ops fs window frame hframe hsqrt hfft
  have hroll : rolloff_bins (List.replicate (fs / 2 + 1) (0 : ℚ)) = (0, 0) := by
    simp [rolloff_bins]
  have hn : ((fs / 2 + 1 : Nat) : ℚ) ≠ 0 := by
    exact_mod_cast Nat.succ_ne_zero (fs / 2)
  have hge1 : (1 : ℚ) ≤ ((fs / 2 + 1 : Nat) : ℚ) := by
    exact_mod_cast Nat.succ_le_succ (Nat.zero_le (fs / 2))
  have hdiv : (1 : ℚ)/1000000000000 / ((1 : ℚ)/1000000000000 / ((fs / 2 + 1 : Nat) : ℚ)) =
      ((fs / 2 + 1 : Nat) : ℚ) := by
    rw [div_div_eq_mul_div, mul_comm, mul_div_assoc,
      div_self (by norm_num : ((1 : ℚ)/1000000000000) ≠ 0), mul_one]
  have hq1 : qClamp ((fs / 2 + 1 : Nat) : ℚ) 0 1 = 1 := by
    unfold qClamp
    rw [max_eq_left (le_trans zero_le_one hge1), min_eq_right hge1]
  have hq0 : qClamp (0 : ℚ) 0 1 = 0 := by
    unfold qClamp
    simp
  have hflux : (List.map (fun q => (q.2 - st.prev_mag.getD q.1 0) ⊔ 0)
      (List.replicate (fs / 2 + 1) (0 : ℚ)).enum).sum = 0 := by
    apply List.sum_eq_zero
    intro x hx
    rcases List.mem_map.mp hx with ⟨q, hq, hqx⟩
    have h2 : q.2 = 0 := List.eq_of_mem_replicate (snd_mem_of_mem_enum hq)
    rw [← hqx, h2, getD_zero_of_all_zero st.prev_mag hprev]
    simp
  simp only [frame_step, hmag, hroll, List.sum_replicate, List.map_replicate,
    List.length_replicate, smul_zero, zero_add, add_zero, zero_div, zero_mul,
    lt_self_iff_false, if_false, sub_zero, List.sum_nil, Nat.cast_ofNat, Nat.cast_zero]
  rw [nsmul_eq_mul, mul_div_cancel_left₀ _ hn, hexp, hdiv, hq1, hflux, neg_zero, zero_div,
    hq0, add_zero]

theorem frames_fold_zero (ops : FloatOps) (sr fs : Nat) (window : List ℚ)
    (hsqrt : ops.sqrt 0 = 0)
    (hexp : ops.exp (ops.ln ((1 : ℚ)/1000000000000)) = (1 : ℚ)/1000000000000)
    (hfft : ∀ l : List (ℚ × ℚ), (∀ c ∈ l, c = ((0 : ℚ), (0 : ℚ))) →
      ∀ k, (ops.fft l).getD k (0, 0) = (0, 0)) :
    ∀ (frames : List (List ℚ)), (∀ fr ∈ frames, ∀ x ∈ fr, x = 0) →
      ∀ st : FrameState, (∀ x ∈ st.prev_mag, x = 0) →
      (frames.foldl (frame_step ops sr fs window) st).centroid_sum = st.centroid_sum ∧
      (frames.foldl (frame_step ops sr fs window) st).roll85_sum = st.roll85_sum ∧
      (frames.foldl (frame_step ops sr fs window) st).roll95_sum = st.roll95_sum ∧
      (frames.foldl (frame_step ops sr fs window) st).flatness_sum =
        st.flatness_sum + (frames.length : ℚ) ∧
      (frames.foldl (frame_step ops sr fs window) st).bandwidth_sum = st.bandwidth_sum ∧
      (frames.foldl (frame_step ops sr fs window) st).spec_entropy_sum =
        st.spec_entropy_sum ∧
      (frames.foldl (frame_step ops sr fs window) st).flux_vals =
        st.flux_vals ++ List.replicate frames.length 0 := by
  intro frames
  induction frames with
  | nil =>
    intro _ st _
    simp
  | cons fr rest ih =>
    intro hall st hprev
    have hfr : ∀ x ∈ fr, x = 0 := hall fr (by simp)
    have hstep := frame_step_zero ops sr fs window st fr hfr hprev hsqrt hexp hfft
    have hprev' : ∀ x ∈ (frame_step ops sr fs window st fr).prev_mag, x = (0 : ℚ) := by
      rw [hstep]
      intro x hx
      exact List.eq_of_mem_replicate hx
    have hres := ih (fun g hg => hall g (by simp [hg])) (frame_step ops sr fs window st fr) hprev'
    rw [hstep] at hres
    dsimp only at hres
    rw [List.foldl_cons, hstep]
    refine ⟨hres.1, hres.2.1, hres.2.2.1, ?_, hres.2.2.2.2.1, hres.2.2.2.2.2.1, ?_⟩
    · rw [hres.2.2.2.1]
      simp only [List.length_cons]
      push_cast
      ring
    · rw [hres.2.2.2.2.2.2]
      simp only [List.length_cons, List.append_assoc, List.singleton_append,
        List.replicate_succ]

theorem onset_count_zero (n : Nat) : onset_count (List.replicate n (0 : ℚ)) = 0 := by
  unfold onset_count
  have hsum : (List.replicate n (0 : ℚ)).sum = 0 := by simp
  rw [hsum]
  simp [List.filter_eq_nil_iff]

theorem ac_at_zero (flux : List ℚ) (h : ∀ x ∈ flux, x = 0) (lag : Nat) :
    ac_at flux lag = 0 := by
  simp only [ac_at]
  have hs : ((List.range (flux.length - lag)).map (fun t =>
      flux.getD (lag + t) 0 * flux.getD t 0)).sum = 0 := by
    apply List.sum_eq_zero
    intro x hx
    rcases List.mem_map.mp hx with ⟨t, _, hxt⟩
    rw [← hxt, getD_zero_of_all_zero flux h, zero_mul]
  rw [hs]
  split_ifs <;> simp

theorem tempo_bpm_zero (flux : List ℚ) (sr hop : Nat) (h : ∀ x ∈ flux, x = 0) :
    tempo_bpm_of flux sr hop = 0 := by
  simp only [tempo_bpm_of]
  split_ifs with hlen
  · rfl
  · have haux : ∀ lags : List Nat,
        lags.foldl (fun (b : ℚ × ℚ) (lag : Nat) =>
          let period_sec := (lag : ℚ) / ((sr : ℚ) / (hop : ℚ))
          if period_sec ≤ 0 then b else
          let cand_bpm := 60 / period_sec
          if 50 ≤ cand_bpm ∧ cand_bpm ≤ 200 ∧ b.2 < ac_at flux lag then
            (cand_bpm, ac_at flux lag) else b) ((0 : ℚ), (0 : ℚ)) = ((0 : ℚ), (0 : ℚ)) := by
      intro lags
      induction lags with
      | nil => rfl
      | cons lag rest ih =>
        rw [List.foldl_cons]
        by_cases hp : ((lag : ℚ) / ((sr : ℚ) / (hop : ℚ))) ≤ 0
        · rw [if_pos hp]
          exact ih
        · rw [if_neg hp, if_neg]
          · exact ih
          · rintro ⟨_, _, hlt⟩
            rw [ac_at_zero flux h lag] at hlt
            exact lt_irrefl _ hlt
    rw [haux]

theorem amp_hist_fold_zero :
    ∀ (l : List ℚ), (∀ x ∈ l, x = 0) → ∀ k : Nat,
      l.foldl (fun h x =>
        let v := (ratTrunc (qClamp ((x * (1/2) + 1/2) * 63) 0 63)).toNat
        h.set v (h.getD v 0 + 1)) ((List.replicate 64 0).set 31 k) =
      (List.replicate 64 0).set 31 (k + l.length) := by
  intro l
  induction l with
  | nil =>
    intro _ k
    simp
  | cons x xs ih =>
    intro h k
    have hx : x = 0 := h x (by simp)
    have hv : (ratTrunc (qClamp (((0 : ℚ) * (1/2) + 1/2) * 63) 0 63)).toNat = 31 := by
      with_unfolding_all rfl
    have hg : ((List.replicate 64 (0 : Nat)).set 31 k).getD 31 0 = k := by
      rw [List.getD_eq_getElem?_getD, List.getElem?_set_eq_of_lt _ (by simp)]
      rfl
    rw [List.foldl_cons]
    simp only [hx, hv, hg]
    rw [List.set_set]
    rw [ih (fun y hy => h y (by simp [hy])) (k + 1)]
    congr 1
    simp
    omega

theorem amp_hist_zero (mono : List ℚ) (h : ∀ x ∈ mono, x = 0) :
    amp_hist mono = (List.replicate 64 0).set 31 mono.length := by
  have hbase : (List.replicate 64 (0 : Nat)) = (List.replicate 64 0).set 31 0 := by decide
  unfold amp_hist
  rw [hbase, amp_hist_fold_zero mono h 0]
  simp

theorem amp_entropy_zero (ops : FloatOps) (mono : List ℚ) (h : ∀ x ∈ mono, x = 0)
    (hln1 : ops.ln 1 = 0) (hne : mono ≠ []) : amp_entropy_of ops mono = 0 := by
  simp only [amp_entropy_of]
  rw [amp_hist_zero mono h]
  have hlen : mono.length ≠ 0 := fun hl => hne (List.length_eq_zero.mp hl)
  rw [if_neg hlen]
  have hsum : (((List.replicate 64 (0 : Nat)).set 31 mono.length).map (fun (c : Nat) =>
      if c = 0 then (0 : ℚ) else
      let p := (c : ℚ) / (mono.length : ℚ);
      (-(p * ops.ln p)))).sum = 0 := by
    apply List.sum_eq_zero
    intro x hx
    rcases List.mem_map.mp hx with ⟨c, hc, hcx⟩
    have hcases : c ∈ List.replicate 64 0 ∨ c = mono.length :=
      List.mem_or_eq_of_mem_set hc
    rcases hcases with hc0 | hcn
    · have : c = 0 := List.eq_of_mem_replicate hc0
      rw [← hcx, if_pos this]
    · rw [← hcx, if_neg (by rw [hcn]; exact hlen)]
      have hp : ((c : ℚ) / (mono.length : ℚ)) = 1 := by
        rw [hcn]
        exact div_self (Nat.cast_ne_zero.mpr hlen)
      simp only [hp, hln1, mul_zero, neg_zero]
  rw [hsum, zero_div]

theorem window_stats_energy_zero (mono : List ℚ) (sr i win : Nat)
    (h : ∀ x ∈ mono, x = 0) : (window_stats mono sr i win).1 = 0 := by
  simp only [window_stats]
  have hfr : ∀ x ∈ (mono.drop i).take win, x = (0 : ℚ) := by
    intro x hx
    exact h x (List.drop_subset i mono (List.take_subset _ _ hx))
  have hsum : ((mono.drop i).take win).sum = 0 := List.sum_eq_zero hfr
  rw [hsum, zero_div]
  have hmap : (((mono.drop i).take win).map (fun x => (x - 0) * (x - 0))).sum = 0 := by
    apply List.sum_eq_zero
    intro y hy
    rcases List.mem_map.mp hy with ⟨x, hx, hxy⟩
    rw [← hxy, hfr x hx]
    ring
  rw [hmap, zero_div]

theorem f0_loop_zero (mono : List ℚ) (sr win step : Nat) (h : ∀ x ∈ mono, x = 0) :
    ∀ (fuel i : Nat), f0_loop mono sr win step fuel i = ([], 0) := by
  intro fuel
  induction fuel with
  | zero => intro i; rfl
  | succ n ih =>
    intro i
    rw [f0_loop]
    by_cases hc : i + win ≤ mono.length
    · rw [if_pos hc, ih (i + step)]
      rw [if_neg]
      rintro ⟨he, _⟩
      rw [window_stats_energy_zero mono sr i win h] at he
      exact absurd he (by norm_num)
    · rw [if_neg hc]

theorem f0_stats_zero (ops : FloatOps) (mono : List ℚ) (sr hop : Nat)
    (h : ∀ x ∈ mono, x = 0) :
    f0_stats ops mono sr hop = { mean_hz := 0, std_hz := 0, voiced_ratio := 0 } := by
  simp only [f0_stats]
  rw [f0_loop_zero mono sr _ _ h]
  simp

theorem analyze_core_zero (ops : FloatOps) (ex : FeatureExtractor) (mono : List ℚ) (sr : Nat)
    (hne : mono ≠ []) (h : ∀ x ∈ mono, x = 0)
    (hsqrt : ops.sqrt 0 = 0)
    (hexp : ops.exp (ops.ln ((1 : ℚ)/1000000000000)) = (1 : ℚ)/1000000000000)
    (hln1 : ops.ln 1 = 0)
    (hfft : ∀ l : List (ℚ × ℚ), (∀ c ∈ l, c = ((0 : ℚ), (0 : ℚ))) →
      ∀ k, (ops.fft l).getD k (0, 0) = (0, 0)) :
    analyze_core ops ex mono sr =
      { rms := 0, peak := 0, crest_factor := 0, zcr := 0, onset_rate := 0, tempo_bpm := 0,
        spectral_centroid_hz := 0, spectral_rolloff85_hz := 0, spectral_rolloff95_hz := 0,
        spectral_flatness := if mono.length < ex.frame_size then 0 else 1,
        spectral_bandwidth_hz := 0, spectral_entropy := 0, amplitude_entropy := 0,
        f0 := { mean_hz := 0, std_hz := 0, voiced_ratio := 0 } } := by
  have hsum2 : (mono.map (fun x => x * x)).sum = 0 := by
    apply List.sum_eq_zero
    intro y hy
    rcases List.mem_map.mp hy with ⟨x, hx, hxy⟩
    rw [← hxy, h x hx]
    ring
  have hpeak : list_peak mono = 0 := list_peak_zero mono h
  have hzc : ((mono.zip mono.tail).filter (fun w =>
      (0 ≤ w.1 ∧ w.2 < 0) ∨ (w.1 < 0 ∧ 0 ≤ w.2))) = [] := by
    rw [List.filter_eq_nil_iff]
    intro w hw
    have h1 : w.1 = 0 := h w.1 (List.of_mem_zip (by simpa using hw)).1
    have h2 : w.2 = 0 := h w.2 (List.tail_subset mono (List.of_mem_zip (by simpa using hw)).2)
    simp [h1, h2]
  by_cases hlt : mono.length < ex.frame_size
  · simp only [analyze_core, hsum2, hpeak, hzc, zero_div, hsqrt, List.length_nil,
      Nat.cast_zero, zero_mul, if_pos hlt]
    simp
  · have hframes : ∀ fr ∈ frames_of mono ex.frame_size ex.hop_size
        (1 + (mono.length - ex.frame_size) / ex.hop_size), ∀ x ∈ fr, x = (0 : ℚ) := by
      intro fr hfr x hx
      rcases List.mem_map.mp hfr with ⟨fi, _, hfi⟩
      rw [← hfi] at hx
      exact h x (List.drop_subset _ mono (List.take_subset _ _ hx))
    have hfold := frames_fold_zero ops sr ex.frame_size (hann_window ops ex.frame_size)
      hsqrt hexp hfft
      (frames_of mono ex.frame_size ex.hop_size
        (1 + (mono.length - ex.frame_size) / ex.hop_size)) hframes
      { centroid_sum := 0, roll85_sum := 0, roll95_sum := 0, flatness_sum := 0,
        bandwidth_sum := 0, spec_entropy_sum := 0,
        prev_mag := List.replicate (ex.frame_size / 2 + 1) 0, flux_vals := [] }
      (fun x hx => List.eq_of_mem_replicate hx)
    dsimp only at hfold
    have hlen : (frames_of mono ex.frame_size ex.hop_size
        (1 + (mono.length - ex.frame_size) / ex.hop_size)).length =
        1 + (mono.length - ex.frame_size) / ex.hop_size := by
      simp [frames_of]
    have hnf0 : (1 + (mono.length - ex.frame_size) / ex.hop_size : Nat) ≠ 0 := by
      simp
    have hnf : ((1 + (mono.length - ex.frame_size) / ex.hop_size : Nat) : ℚ) ≠ 0 :=
      Nat.cast_ne_zero.mpr hnf0
    have hflux0 : ∀ x ∈ [] ++ List.replicate
        (frames_of mono ex.frame_size ex.hop_size
          (1 + (mono.length - ex.frame_size) / ex.hop_size)).length (0 : ℚ), x = 0 := by
      intro x hx
      simp only [List.nil_append] at hx
      exact List.eq_of_mem_replicate hx
    simp only [analyze_core, hsum2, hpeak, hzc, zero_div, hsqrt, List.length_nil,
      Nat.cast_zero, zero_mul, if_neg hlt, if_neg hnf0]
    rw [hfold.1, hfold.2.1, hfold.2.2.1, hfold.2.2.2.1, hfold.2.2.2.2.1,
      hfold.2.2.2.2.2.1, hfold.2.2.2.2.2.2]
    rw [tempo_bpm_zero _ sr ex.hop_size hflux0]
    rw [amp_entropy_zero ops mono h hln1 hne, f0_stats_zero ops mono sr ex.hop_size h]
    have honset : onset_count ([] ++ List.replicate
        (frames_of mono ex.frame_size ex.hop_size
          (1 + (mono.length - ex.frame_size) / ex.hop_size)).length (0 : ℚ)) = 0 := by
      rw [List.nil_append, onset_count_zero]
    rw [honset]
    rw [hlen, zero_add, div_self hnf]
    simp

/-- C3 counterexample: for an all-zero buffer of positive length at least
one frame long, the reported spectral flatness is 1, not 0 (geometric and
arithmetic magnitude means coincide at the epsilon floor, and the ratio is
clamped to 1), contradicting the claim that all spectral scalars are
exactly 0. -/
theorem all_zero_flatness_one :
    (resultFeatures (analyze_mono ops0 ex0 zeros4 8)).spectral_flatness = 1 ∧
    (∀ x ∈ zeros4, x = (0 : ℚ)) ∧
    zeros4 ≠ [] ∧
    ¬ (zeros4.length < ex0.frame_size) ∧
    (1 : ℚ) ≠ 0 :=
  ⟨by with_unfolding_all rfl, by decide, by decide, by decide, by norm_num⟩

/-- C3 (amended): for an all-zero buffer of positive length with positive
sample rate (frame size at least 2, hop size at least 1, float primitives
satisfying the basic identities sqrt 0 = 0, exp (ln eps) = eps, ln 1 = 0,
and an FFT mapping all-zero buffers to all-zero spectra), the report has
RMS, peak, crest factor, ZCR, onset rate, tempo, centroid, bandwidth, both
rolloffs, spectral entropy, amplitude entropy and all F0 statistics
exactly 0, and spectral flatness exactly 0 when the buffer is shorter than
one frame but exactly 1 otherwise. Frame size 1 is excluded: there the
program normalizes the per-frame entropy by ln 1 = 0, producing a NaN the
rational model cannot express. -/
theorem analyze_mono_all_zero (ops : FloatOps) (ex : FeatureExtractor) (mono : List ℚ)
    (sr : Nat) (hne : mono ≠ []) (h : ∀ x ∈ mono, x = 0) (hsr : 0 < sr)
    (hfs : 2 ≤ ex.frame_size) (hhop : 1 ≤ ex.hop_size)
    (hsqrt : ops.sqrt 0 = 0)
    (hexp : ops.exp (ops.ln ((1 : ℚ)/1000000000000)) = (1 : ℚ)/1000000000000)
    (hln1 : ops.ln 1 = 0)
    (hfft : ∀ l : List (ℚ × ℚ), (∀ c ∈ l, c = ((0 : ℚ), (0 : ℚ))) →
      ∀ k, (ops.fft l).getD k (0, 0) = (0, 0)) :
    analyze_mono ops ex mono sr = Except.ok
      { rms := 0, peak := 0, crest_factor := 0, zcr := 0, onset_rate := 0, tempo_bpm := 0,
        spectral_centroid_hz := 0, spectral_rolloff85_hz := 0, spectral_rolloff95_hz := 0,
        spectral_flatness := if mono.length < ex.frame_size then 0 else 1,
        spectral_bandwidth_hz := 0, spectral_entropy := 0, amplitude_entropy := 0,
        f0 := { mean_hz := 0, std_hz := 0, voiced_ratio := 0 } } := by
  unfold analyze_mono
  rw [if_neg]
  · rw [analyze_core_zero ops ex mono sr hne h hsqrt hexp hln1 hfft]
  · rintro (hc | hc)
    · exact hne hc
    · omega

theorem analyze_mono_all_zero_witness :
    (zeros4 ≠ []) ∧ (∀ x ∈ zeros4, x = (0 : ℚ)) ∧ (0 < 8) ∧
    (2 ≤ ex0.frame_size) ∧ (1 ≤ ex0.hop_size) ∧
    (ops0.sqrt 0 = 0) ∧
    (ops0.exp (ops0.ln ((1 : ℚ)/1000000000000)) = (1 : ℚ)/1000000000000) ∧
    (ops0.ln 1 = 0) ∧
    (analyze_mono ops0 ex0 zeros4 8 = Except.ok
      { rms := 0, peak := 0, crest_factor := 0, zcr := 0, onset_rate := 0, tempo_bpm := 0,
        spectral_centroid_hz := 0, spectral_rolloff85_hz := 0, spectral_rolloff95_hz := 0,
        spectral_flatness := if zeros4.length < ex0.frame_size then 0 else 1,
        spectral_bandwidth_hz := 0, spectral_entropy := 0, amplitude_entropy := 0,
        f0 := { mean_hz := 0, std_hz := 0, voiced_ratio := 0 } }) :=
  ⟨by decide, by decide, by decide, by decide, by decide,
   by with_unfolding_all rfl, by with_unfolding_all rfl, by with_unfolding_all rfl,
   analyze_mono_all_zero ops0 ex0 zeros4 8 (by decide) (by decide) (by decide)
     (by decide) (by decide) (by with_unfolding_all rfl) (by with_unfolding_all rfl)
     (by with_unfolding_all rfl)
     (by
       intro l hl k
       have hid : ops0.fft l = l := rfl
       rw [List.getD_eq_getElem?_getD, hid]
       cases hx : l[k]? with
       | none => simp [hx]
       | some v =>
         have hv := hl v (List.getElem?_mem hx)
         simp [hx, hv])⟩
